import Mathlib

/-!
# Verification of the job-watcher backend core

A shallow embedding, in Lean 4, of the parts of the `job-watcher` repository
that the specification's claims are about:

* `backend/app/services/dedupe.py` — dedupe-key derivation and the
  `SqliteJobState.upsert_and_compute_new` state engine;
* `backend/app/services/runner.py` — the manual-override and ML-rescue
  pipeline stages of `RunnerService.run_once`, and its unpacking of the
  legacy adapter's result;
* `backend/app/services/fetchers/legacy_adapter.py` — `fetch_jobs_via_legacy`;
* `backend/app/legacy/job_fetcher_legacy.py` — the location helpers,
  `FilterAgent.explain`, `CareerUrlAgent._iterate_list_pages`,
  `CareerUrlAgent._detect_embedded_ats` and the `CareerUrlAgent.fetch`
  strategy cascade.

Python strings are modelled as `List Char`; the ASCII-only string functions
used by the code (`.lower()`, `.upper()`, `.strip()`, substring tests, the
few fixed regular expressions) are implemented directly over `List Char`
with Python's semantics on ASCII input.  SQLite tables are modelled as lists
of typed rows, with `INSERT`, `UPDATE` and `INSERT .. ON CONFLICT DO UPDATE`
given their SQL semantics.  Network fetches, HTML parsing (BeautifulSoup)
and the ML model are environment oracles: they appear as function-valued
parameters, while all control flow around them is translated from the source.
-/

namespace JobWatcher

/-- Shorthand: a Python `str` value is modelled as its list of characters. -/
def str (s : String) : List Char := s.data

/-! ## ASCII string primitives (Python `str` methods and `re` behaviour) -/

/-- Python `str.lower()` restricted to ASCII input (`A`-`Z` mapped down). -/
def pyLower (s : List Char) : List Char := s.map Char.toLower

/-- Python `str.upper()` restricted to ASCII input (`a`-`z` mapped up). -/
def pyUpper (s : List Char) : List Char := s.map Char.toUpper

/-- The characters matched by Python's `\s` (and stripped by `str.strip()`)
on ASCII input: space, `\t`, `\n`, `\r`, `\x0b`, `\x0c`. -/
def isPySpace (c : Char) : Bool :=
  c == ' ' || c == '\t' || c == '\n' || c == '\r' || c.toNat == 11 || c.toNat == 12

/-- Python `str.strip()` (no argument): drop leading and trailing whitespace. -/
def pyStrip (s : List Char) : List Char :=
  ((s.dropWhile isPySpace).reverse.dropWhile isPySpace).reverse

/-- Python `needle in haystack` substring test. -/
def hasSub (pat : List Char) : List Char → Bool
  | [] => pat.isEmpty
  | c :: rest => pat.isPrefixOf (c :: rest) || hasSub pat rest

/-- A regex word character (`\w`) on ASCII input. -/
def isWordChar (c : Char) : Bool := c.isAlphanum || c == '_'

/-- Whether position `i` of `s` holds a word character (out of range: no). -/
def wordAt (s : List Char) (i : Nat) : Bool :=
  match s.drop i with
  | [] => false
  | c :: _ => isWordChar c

/-- Python's `\b` assertion between positions `i-1` and `i` of `s`. -/
def boundaryAt (s : List Char) (i : Nat) : Bool :=
  (if i = 0 then false else wordAt s (i - 1)) != wordAt s i

/-- `pat` occurs at position `i` of `s` with a `\b` on both sides. -/
def boundedAt (s pat : List Char) (i : Nat) : Bool :=
  boundaryAt s i && pat.isPrefixOf (s.drop i) && boundaryAt s (i + pat.length)

/-- Truth value of `re.search` for an alternation of word-bounded literal
terms (`\b(t1|t2|...)\b`): some term occurs somewhere, word-bounded. -/
def searchBoundedAny (terms : List (List Char)) (s : List Char) : Bool :=
  (List.range (s.length + 1)).any fun i => terms.any fun pat => boundedAt s pat i

/-! ## UTF-8 and SHA-1 (`hashlib.sha1(...).hexdigest()` in `dedupe.py`) -/

/-- UTF-8 encoding of one scalar value, as a list of bytes (as `Nat`s). -/
def utf8Bytes (c : Char) : List Nat :=
  let n := c.toNat
  if n < 0x80 then [n]
  else if n < 0x800 then [0xC0 + n / 64, 0x80 + n % 64]
  else if n < 0x10000 then [0xE0 + n / 4096, 0x80 + n / 64 % 64, 0x80 + n % 64]
  else [0xF0 + n / 262144, 0x80 + n / 4096 % 64, 0x80 + n / 64 % 64, 0x80 + n % 64]

/-- Python `s.encode("utf-8")` (Lean `Char`s are scalar values, so the
`errors="ignore"` branch is unreachable). -/
def utf8Encode (s : List Char) : List Nat := s.flatMap utf8Bytes

/-- 32-bit truncation. -/
def w32 (n : Nat) : Nat := n % 4294967296

/-- 32-bit left rotation. -/
def rotl32 (b n : Nat) : Nat :=
  w32 (Nat.lor (w32 (Nat.shiftLeft n b)) (Nat.shiftRight (w32 n) (32 - b)))

/-- SHA-1 message padding: append `0x80`, zero-pad to 56 mod 64, then the
original bit length as 8 big-endian bytes. -/
def sha1pad (msg : List Nat) : List Nat :=
  let bitLen := msg.length * 8
  let withOne := msg ++ [0x80]
  let padZeros := (64 - (withOne.length % 64) + 56) % 64
  withOne ++ List.replicate padZeros 0 ++
    ((List.range 8).map fun i => Nat.shiftRight bitLen ((7 - i) * 8) % 256)

/-- Big-endian 32-bit words from a byte list (length assumed ≡ 0 mod 4). -/
def bytesToWords : List Nat → List Nat
  | b0 :: b1 :: b2 :: b3 :: rest =>
      (b0 * 16777216 + b1 * 65536 + b2 * 256 + b3) :: bytesToWords rest
  | _ => []

/-- Extend 16 message words to 80 (stored reversed for sharing). -/
def sha1Extend : Nat → List Nat → List Nat
  | 0, acc => acc
  | k + 1, acc =>
      let w := rotl32 1 (Nat.xor (Nat.xor (acc.getD 2 0) (acc.getD 7 0))
        (Nat.xor (acc.getD 13 0) (acc.getD 15 0)))
      sha1Extend k (w :: acc)

/-- One SHA-1 round: state `(a,b,c,d,e)`, round index `i`, message word. -/
def sha1Round (st : Nat × Nat × Nat × Nat × Nat) (i wi : Nat) :
    Nat × Nat × Nat × Nat × Nat :=
  let (a, b, c, d, e) := st
  let f :=
    if i < 20 then Nat.lor (Nat.land b c) (Nat.land (Nat.xor b 4294967295) d)
    else if i < 40 then Nat.xor (Nat.xor b c) d
    else if i < 60 then Nat.lor (Nat.lor (Nat.land b c) (Nat.land b d)) (Nat.land c d)
    else Nat.xor (Nat.xor b c) d
  let k :=
    if i < 20 then 0x5A827999
    else if i < 40 then 0x6ED9EBA1
    else if i < 60 then 0x8F1BBCDC
    else 0xCA62C1D6
  let temp := w32 (rotl32 5 a + f + e + k + wi)
  (temp, a, rotl32 30 b, c, d)

/-- Run the 80 rounds of one chunk over the word schedule. -/
def sha1Rounds (ws : List Nat) (i : Nat) (st : Nat × Nat × Nat × Nat × Nat) :
    Nat × Nat × Nat × Nat × Nat :=
  match ws with
  | [] => st
  | w :: rest => sha1Rounds rest (i + 1) (sha1Round st i w)

/-- Split a byte list into consecutive 64-byte chunks (accumulator holds the
current partial chunk reversed). -/
def chunks64Aux (acc : List Nat) : List Nat → List (List Nat)
  | [] => if acc.isEmpty then [] else [acc.reverse]
  | b :: rest =>
      if acc.length = 63 then (b :: acc).reverse :: chunks64Aux [] rest
      else chunks64Aux (b :: acc) rest

/-- Split a byte list into consecutive 64-byte chunks. -/
def chunks64 (bs : List Nat) : List (List Nat) := chunks64Aux [] bs

/-- Compress one 64-byte chunk into the five hash words. -/
def sha1Compress (h : Nat × Nat × Nat × Nat × Nat) (chunk : List Nat) :
    Nat × Nat × Nat × Nat × Nat :=
  let (h0, h1, h2, h3, h4) := h
  let ws := (sha1Extend 64 ((bytesToWords chunk).reverse)).reverse
  let (a, b, c, d, e) := sha1Rounds ws 0 (h0, h1, h2, h3, h4)
  (w32 (h0 + a), w32 (h1 + b), w32 (h2 + c), w32 (h3 + d), w32 (h4 + e))

/-- Process all chunks of the padded message. -/
def sha1Chunks (bs : List Nat) (st : Nat × Nat × Nat × Nat × Nat) :
    Nat × Nat × Nat × Nat × Nat :=
  (chunks64 bs).foldl sha1Compress st

/-- Lowercase hex digit for a value `< 16`. -/
def hexDigit (n : Nat) : Char :=
  if n < 10 then Char.ofNat (48 + n) else Char.ofNat (87 + n)

/-- Eight lowercase hex digits of a 32-bit word. -/
def hex8 (n : Nat) : List Char :=
  (List.range 8).map fun i => hexDigit (Nat.shiftRight n ((7 - i) * 4) % 16)

/-- `hashlib.sha1(bytes).hexdigest()`. -/
def sha1Hex (msg : List Nat) : List Char :=
  let (h0, h1, h2, h3, h4) :=
    sha1Chunks (sha1pad msg) (0x67452301, 0xEFCDAB89, 0x98BADCFE, 0x10325476, 0xC3D2E1F0)
  hex8 h0 ++ hex8 h1 ++ hex8 h2 ++ hex8 h3 ++ hex8 h4

/-! ## `dedupe.py`: key derivation -/

/-- Helper for `collapseWs`: `inRun` records whether the previous character
was part of a whitespace run already emitted as one space. -/
def collapseWsAux (inRun : Bool) : List Char → List Char
  | [] => []
  | c :: rest =>
      if isPySpace c then
        if inRun then collapseWsAux true rest
        else ' ' :: collapseWsAux true rest
      else c :: collapseWsAux false rest

/-- `_WS.sub(" ", ...)`: collapse each maximal run of whitespace to a single
space. -/
def collapseWs (s : List Char) : List Char := collapseWsAux false s

/-- `dedupe._norm`: collapse whitespace in the stripped string, lowercase. -/
def norm (s : List Char) : List Char := pyLower (collapseWs (pyStrip s))

/-- `dedupe.sha1_text`. -/
def sha1_text (s : List Char) : List Char := sha1Hex (utf8Encode s)

/-- The job dict as consumed by `build_dedupe_key` and
`upsert_and_compute_new` (fields default to `""` via `job.get(...)`;
`past_h1b_support` defaults to `"no"` and `work_mode` to `"unknown"` at the
`jobs_latest` insert site). -/
structure JobDict where
  url : List Char := []
  job_id : List Char := []
  source_type : List Char := []
  company_name : List Char := []
  title : List Char := []
  location : List Char := []
  department : List Char := []
  team : List Char := []
  date_posted : List Char := []
  description : List Char := []
  past_h1b_support : List Char := str "no"
  work_mode : List Char := str "unknown"
deriving Repr, DecidableEq

/-- `dedupe.build_dedupe_key`. -/
def build_dedupe_key (job : JobDict) : List Char :=
  if pyStrip job.url ≠ [] then
    str "url:" ++ sha1_text (norm job.url)
  else if pyStrip job.job_id ≠ [] then
    str "id:" ++ job.source_type ++ str ":" ++ job.company_name ++ str ":" ++ job.job_id
  else
    str "hash:" ++ sha1_text (norm
      (job.company_name ++ str "|" ++ job.title ++ str "|" ++ job.location ++
        str "|" ++ job.department ++ str "|" ++ job.team))

/-! ## `dedupe.py`: `SqliteJobState.upsert_and_compute_new`

The three tables touched by the state engine are modelled as lists of typed
rows, in insertion order.  Timestamps (ISO strings produced by
`now_utc_iso`) are modelled as naturals, so that the order comparisons in
the invariants make sense; each call takes its `now` as a parameter. -/

/-- A `jobs_seen` row: `dedupe_key, first_seen, last_seen`. -/
structure SeenRow where
  dedupe_key : List Char
  first_seen : Nat
  last_seen : Nat
deriving Repr, DecidableEq

/-- A `jobs_latest` row (snapshot fields as written by the upsert). -/
structure LatestRow where
  dedupe_key : List Char
  company_name : List Char
  title : List Char
  location : List Char
  url : List Char
  description : List Char
  department : List Char
  team : List Char
  date_posted : List Char
  source_type : List Char
  past_h1b_support : List Char
  work_mode : List Char
deriving Repr, DecidableEq

/-- A `run_jobs` row. -/
structure RunJobRow where
  run_id : List Char
  dedupe_key : List Char
  included : Nat
  settings_hash : List Char
  matched_at : Nat
deriving Repr, DecidableEq

/-- The persistent state touched by `upsert_and_compute_new`. -/
structure Db where
  jobs_seen : List SeenRow
  jobs_latest : List LatestRow
  run_jobs : List RunJobRow
deriving Repr, DecidableEq

/-- `SELECT first_seen FROM jobs_seen WHERE dedupe_key=? ... fetchone()`. -/
def seenLookup (rows : List SeenRow) (k : List Char) : Option SeenRow :=
  rows.find? fun r => r.dedupe_key = k

/-- `UPDATE jobs_seen SET last_seen=? WHERE dedupe_key=?`. -/
def seenSetLast (rows : List SeenRow) (k : List Char) (now : Nat) : List SeenRow :=
  rows.map fun r => if r.dedupe_key = k then { r with last_seen := now } else r

/-- The `jobs_latest` row written for a job under key `k`. -/
def latestRowOf (k : List Char) (job : JobDict) : LatestRow :=
  { dedupe_key := k
    company_name := job.company_name
    title := job.title
    location := job.location
    url := job.url
    description := job.description
    department := job.department
    team := job.team
    date_posted := job.date_posted
    source_type := job.source_type
    past_h1b_support := job.past_h1b_support
    work_mode := job.work_mode }

/-- `INSERT INTO jobs_latest ... ON CONFLICT(dedupe_key) DO UPDATE SET ...`:
update the existing row for the key, else append a new row. -/
def latestUpsert (rows : List LatestRow) (row : LatestRow) : List LatestRow :=
  if rows.any fun r => r.dedupe_key = row.dedupe_key then
    rows.map fun r => if r.dedupe_key = row.dedupe_key then row else r
  else rows ++ [row]

/-- `INSERT INTO run_jobs ... ON CONFLICT(run_id, dedupe_key) DO UPDATE`. -/
def runJobsUpsert (rows : List RunJobRow) (row : RunJobRow) : List RunJobRow :=
  if rows.any fun r => r.run_id = row.run_id ∧ r.dedupe_key = row.dedupe_key then
    rows.map fun r =>
      if r.run_id = row.run_id ∧ r.dedupe_key = row.dedupe_key then
        { r with included := row.included, settings_hash := row.settings_hash,
                 matched_at := row.matched_at }
      else r
  else rows ++ [row]

/-- A returned job: the input dict after the upsert loop set `dedupe_key`
and `first_seen` on it. -/
structure OutJob where
  job : JobDict
  dedupe_key : List Char
  first_seen : Nat
deriving Repr, DecidableEq

/-- The body of the `for job in jobs:` loop of `upsert_and_compute_new` for
one job; returns the updated state plus the `(current, new)` contributions
(`new?` is `some` when the key was unseen). -/
def upsertOne (runCtx : Option (List Char × List Char)) (now : Nat)
    (db : Db) (job : JobDict) : Db × OutJob × Bool :=
  let dk := build_dedupe_key job
  let seenRes : List SeenRow × Nat × Bool :=
    match seenLookup db.jobs_seen dk with
    | none =>
        (db.jobs_seen ++ [{ dedupe_key := dk, first_seen := now, last_seen := now }],
          now, true)
    | some row => (seenSetLast db.jobs_seen dk now, row.first_seen, false)
  let seen := seenRes.1
  let firstSeen := seenRes.2.1
  let isNew := seenRes.2.2
  let latest := latestUpsert db.jobs_latest (latestRowOf dk job)
  let runJobs :=
    match runCtx with
    | some (runId, settingsHash) =>
        if runId ≠ [] ∧ settingsHash ≠ [] then
          runJobsUpsert db.run_jobs
            { run_id := runId, dedupe_key := dk, included := 1,
              settings_hash := settingsHash, matched_at := now }
        else db.run_jobs
    | none => db.run_jobs
  ({ jobs_seen := seen, jobs_latest := latest, run_jobs := runJobs },
    { job := job, dedupe_key := dk, first_seen := firstSeen }, isNew)

/-- `SqliteJobState.upsert_and_compute_new`: fold the loop body over the
job list, collecting `current` (all jobs) and `new` (first-seen jobs) in
order. -/
def upsert_and_compute_new (runCtx : Option (List Char × List Char))
    (now : Nat) (db : Db) : List JobDict → Db × List OutJob × List OutJob
  | [] => (db, [], [])
  | job :: rest =>
      let (db1, out, isNew) := upsertOne runCtx now db job
      let (db2, current, newJobs) := upsert_and_compute_new runCtx now db1 rest
      (db2, out :: current, if isNew then out :: newJobs else newJobs)

/-- The database after a sequence of runs, each re-submitting the same job
list `jobs` at its own clock value (`runs` lists each run's
`(now, run context)` in order). -/
def replayRuns (jobs : List JobDict) (db : Db) :
    List (Nat × Option (List Char × List Char)) → Db
  | [] => db
  | (now, ctx) :: rest => replayRuns jobs (upsert_and_compute_new ctx now db jobs).1 rest

/-- The database after an arbitrary sequence of
`upsert_and_compute_new` calls; each entry lists one call's
`(now, run context, job list)`. -/
def replayCalls (db : Db) :
    List (Nat × Option (List Char × List Char) × List JobDict) → Db
  | [] => db
  | c :: rest => replayCalls (upsert_and_compute_new c.2.1 c.1 db c.2.2).1 rest

/-- All timestamps stored in `jobs_seen` are consistent and no later than
`clock` (the wall clock is non-decreasing, so every future `now` is at
least `clock`). -/
def dbClockInv (db : Db) (clock : Nat) : Prop :=
  ∀ r ∈ db.jobs_seen, r.first_seen ≤ r.last_seen ∧ r.last_seen ≤ clock

/-- No two `jobs_seen` rows share a dedupe key (`dedupe_key` is the primary
key in the migration schema). -/
def seenKeysUnique (rows : List SeenRow) : Prop :=
  (rows.map SeenRow.dedupe_key).Nodup

/-- No two `jobs_latest` rows share a dedupe key. -/
def latestKeysUnique (rows : List LatestRow) : Prop :=
  (rows.map LatestRow.dedupe_key).Nodup

/-- No two `run_jobs` rows share a `(run_id, dedupe_key)` pair. -/
def runJobsKeysUnique (rows : List RunJobRow) : Prop :=
  (rows.map fun r => (r.run_id, r.dedupe_key)).Nodup

/-! ## `runner.py`: manual overrides and the ML rescue gate

An audit row is a job dict carrying `_audit_included` and `_audit_reasons`;
only the fields this pipeline stage reads or writes are modelled.  The
override map stands for the `job_overrides` query results, with actions
already passed through `(action or "").strip().lower()` as in the dict
build at `runner.py` lines 166-170.  Model probabilities are the values of
`ml.score_audit_rows`, modelled as rationals. -/

/-- Decimal digits of a natural number (structural, fuelled by `n`). -/
def natDigitsAux : Nat → Nat → List Char
  | 0, _ => []
  | fuel + 1, n =>
      if n < 10 then [hexDigit n]
      else natDigitsAux fuel (n / 10) ++ [hexDigit (n % 10)]

/-- Decimal digits of a natural number. -/
def natDigits (n : Nat) : List Char := natDigitsAux (n + 1) n

/-- Floor of a rational, computed directly from its reduced fraction. -/
def ratFloor (q : ℚ) : ℤ := Int.fdiv q.num (q.den : ℤ)

/-- Python `f"{p:.3f}"` on a rational: three decimals, ties to even. -/
def fmtProb3 (p : ℚ) : List Char :=
  let scaled : ℚ := p * 1000
  let fl : ℤ := ratFloor scaled
  let frac : ℚ := scaled - fl
  let n : ℤ :=
    if frac > 1/2 then fl + 1
    else if frac < 1/2 then fl
    else if fl % 2 = 0 then fl else fl + 1
  let m := n.natAbs
  let fracDigits := natDigits (m % 1000)
  (if n < 0 then ['-'] else []) ++ natDigits (m / 1000) ++ ['.'] ++
    List.replicate (3 - fracDigits.length) '0' ++ fracDigits

/-- One evaluated job as seen by the override / rescue stages of
`RunnerService.run_once`: its dedupe key, `_audit_included` (read back via
`int(... or 0)`) and `_audit_reasons`. -/
structure AuditRow where
  dedupe_key : List Char
  included : Nat
  reasons : List (List Char)
deriving Repr, DecidableEq

/-- The override application for one row (`runner.py` lines 172-183): the
`action` is the stored `job_overrides.action`, normalized as in the dict
build; an empty action hits `if not action: continue`. -/
def applyOverride (overrides : List Char → Option (List Char))
    (row : AuditRow) : AuditRow :=
  match overrides row.dedupe_key with
  | none => row
  | some action =>
      if action = [] then row
      else if action = str "include" then
        { row with included := 1,
                   reasons := row.reasons ++ [str "override:force_include"] }
      else if action = str "exclude" then
        { row with included := 0,
                   reasons := row.reasons ++ [str "override:force_exclude"] }
      else { row with reasons := row.reasons }

/-- The `hard_prefixes` tuple of `runner.py` (lines 216-222). -/
def hardGatePrefixes : List (List Char) :=
  [str "location:", str "work_mode:", str "remote_us:", str "state:",
    str "visa_restriction:"]

/-- `has_hard_gate`: some reason starts with a hard-gate marker. -/
def hasHardGate (reasons : List (List Char)) : Bool :=
  reasons.any fun r => hardGatePrefixes.any fun mark => mark.isPrefixOf r

/-- The per-row body of the ML loop (`runner.py` lines 224-243): append the
probability reason, and in rescue mode flip a dropped row with no hard-gate
reason and probability at or above the threshold. -/
def mlRescueStep (mlMode : List Char) (threshold : ℚ)
    (probs : List Char → Option ℚ) (row : AuditRow) : AuditRow :=
  match probs row.dedupe_key with
  | none => row
  | some p =>
      let reasons1 := row.reasons ++ [str "ml:prob:" ++ fmtProb3 p]
      if mlMode = str "rescue" ∧ row.included = 0 then
        if ¬ hasHardGate reasons1 ∧ threshold ≤ p then
          { row with included := 1, reasons := reasons1 ++ [str "ml:rescued"] }
        else { row with reasons := reasons1 }
      else { row with reasons := reasons1 }

/-- The decision pipeline applied to one audit row by `run_once` between
fetching and persistence: manual override first (lines 172-183), then the
ML block (lines 186-254) — the rescue step when the model is enabled and
loaded, an `ml:unavailable:<reason>` annotation when enabled but not
loaded, nothing when disabled. -/
def rowDecision (overrides : List Char → Option (List Char))
    (mlEnabled mlAvailable : Bool) (unavailReason : List Char)
    (mlMode : List Char) (threshold : ℚ) (probs : List Char → Option ℚ)
    (row : AuditRow) : AuditRow :=
  let r1 := applyOverride overrides row
  if mlEnabled then
    if mlAvailable then mlRescueStep mlMode threshold probs r1
    else { r1 with reasons := r1.reasons ++ [str "ml:unavailable:" ++ unavailReason] }
  else r1

/-- `final_kept` (`runner.py` line 257): rows whose final decision is 1. -/
def finalKept (rows : List AuditRow) : List AuditRow :=
  rows.filter fun r => r.included = 1

/-- The override pass over the full evaluated set: `audit_by_key` keeps,
for each dedupe key, the **last** row with that key, and the override loop
mutates exactly those objects — a row followed by another row with the
same key is left untouched. -/
def applyOverridesPhase (overrides : List Char → Option (List Char)) :
    List AuditRow → List AuditRow
  | [] => []
  | r :: rest =>
      (if rest.all fun r2 => r2.dedupe_key ≠ r.dedupe_key then
        applyOverride overrides r
      else r) :: applyOverridesPhase overrides rest

/-- The ML block over the full evaluated set (`runner.py` lines 186-254). -/
def mlPhase (mlEnabled mlAvailable : Bool) (unavailReason mlMode : List Char)
    (threshold : ℚ) (probs : List Char → Option ℚ) (rows : List AuditRow) :
    List AuditRow :=
  if ¬ mlEnabled then rows
  else if ¬ mlAvailable then
    rows.map fun r =>
      { r with reasons := r.reasons ++ [str "ml:unavailable:" ++ unavailReason] }
  else rows.map (mlRescueStep mlMode threshold probs)

/-- Overrides followed by the ML block, as `run_once` runs them. -/
def runnerDecisions (overrides : List Char → Option (List Char))
    (mlEnabled mlAvailable : Bool) (unavailReason mlMode : List Char)
    (threshold : ℚ) (probs : List Char → Option ℚ) (rows : List AuditRow) :
    List AuditRow :=
  mlPhase mlEnabled mlAvailable unavailReason mlMode threshold probs
    (applyOverridesPhase overrides rows)

/-! ## `legacy_adapter.fetch_jobs_via_legacy` and the `run_once` unpack

`fetch_jobs_via_legacy` returns the 4-tuple
`(kept_dicts, errors, h1b_agent.load_errors, discovered)`;
`run_once` (runner.py line 128) unpacks it into five names.  Python tuples
are heterogeneous, so the returned tuple is modelled as a list of tagged
values, and tuple unpacking as a length-checked match. -/

/-- One entry of the legacy `sources` config list. -/
structure SourceCfg where
  type : List Char := []
  company_slug : List Char := []
  url : List Char := []
  label : List Char := []
  employer_name : List Char := []
deriving Repr, DecidableEq

/-- `dict[key] = value` on an association list: overwrite or append. -/
def dictSet (m : List (List Char × List Char)) (k v : List Char) :
    List (List Char × List Char) :=
  if m.any fun e => e.1 = k then
    m.map fun e => if e.1 = k then (k, v) else e
  else m ++ [(k, v)]

/-- `fetch_company` from `fetch_all_sources` (legacy lines 1627-1658): one
company task; per-source failures of the agent oracle are caught and
recorded under `"<label>:<type>"`; other sources' jobs survive. -/
def fetchCompany (agentFetch : SourceCfg → Except (List Char) (List JobDict))
    (label : List Char) (srcs : List SourceCfg) :
    List JobDict × List (List Char × List Char) :=
  srcs.foldl
    (fun acc src =>
      let (jobs, errs) := acc
      let srcType := pyLower (pyStrip src.type)
      let key := label ++ str ":" ++ srcType
      if srcType ∉ [str "greenhouse", str "lever", str "career_url"] then
        (jobs, dictSet errs key (str "Unsupported source type: " ++ srcType))
      else if (srcType = str "greenhouse" ∨ srcType = str "lever") ∧
          pyStrip src.company_slug = [] then
        (jobs, dictSet errs key (str "Missing company_slug"))
      else
        match agentFetch src with
        | .ok fetched => (jobs ++ fetched, errs)
        | .error e => (jobs, dictSet errs key e))
    ([], [])

/-- `grouped`: group the sources by `(label or company_slug or "unknown")`
in first-appearance order (`grouped.setdefault(label, []).append(src)`). -/
def groupByLabel (sources : List SourceCfg) :
    List (List Char × List SourceCfg) :=
  sources.foldl
    (fun acc src =>
      let label :=
        if pyStrip src.label ≠ [] then pyStrip src.label
        else if pyStrip src.company_slug ≠ [] then pyStrip src.company_slug
        else str "unknown"
      if acc.any fun g => g.1 = label then
        acc.map fun g => if g.1 = label then (g.1, g.2 ++ [src]) else g
      else acc ++ [(label, [src])])
    []

/-- `fetch_all_sources` (legacy lines 1609-1670): fan the company tasks out
and merge jobs and error maps (worker completion order is nondeterministic
in the source; the merge is modelled in group order). -/
def fetch_all_sources (agentFetch : SourceCfg → Except (List Char) (List JobDict))
    (sources : List SourceCfg) :
    List JobDict × List (List Char × List Char) :=
  if sources = [] then ([], [])
  else
    (groupByLabel sources).foldl
      (fun acc g =>
        let (jobs, errs) := fetchCompany agentFetch g.1 g.2
        (acc.1 ++ jobs, errs.foldl (fun m e => dictSet m e.1 e.2) acc.2))
      ([], [])

/-- A value inside the tuple returned by `fetch_jobs_via_legacy`. -/
inductive PyVal where
  /-- `kept_dicts` -/
  | jobs (l : List JobDict)
  /-- `errors` -/
  | errMap (m : List (List Char × List Char))
  /-- `h1b_agent.load_errors` -/
  | strs (l : List (List Char))
  /-- `discovered` -/
  | discoveries (l : List (List Char × List Char × List Char × List Char × List Char))
deriving Repr

/-- The tuple returned by `fetch_jobs_via_legacy`
(`legacy_adapter.py` line 103): exactly four values.  The filter, H1B
marking and discovery scan happen before this return; only the tuple's
arity matters to the caller, which is what this model keeps. -/
def fetchJobsViaLegacyTuple
    (agentFetch : SourceCfg → Except (List Char) (List JobDict))
    (filterKeep : JobDict → Bool)
    (h1bLoadErrors : List (List Char))
    (discovered : List (List Char × List Char × List Char × List Char × List Char))
    (sources : List SourceCfg) : List PyVal :=
  let (rawJobs, errors) := fetch_all_sources agentFetch sources
  [.jobs (rawJobs.filter filterKeep), .errMap errors, .strs h1bLoadErrors,
    .discoveries discovered]

/-- The unpack `fetched_jobs, source_errors, h1b_errors, discovered_sources,
audit_rows = fetch_jobs_via_legacy(config)` at `runner.py` line 128:
Python raises `ValueError` unless the tuple has exactly five items. -/
def unpackFive (t : List PyVal) :
    Except (List Char) (PyVal × PyVal × PyVal × PyVal × PyVal) :=
  match t with
  | [a, b, c, d, e] => .ok (a, b, c, d, e)
  | l =>
      if l.length < 5 then
        .error (str "ValueError: not enough values to unpack (expected 5, got "
          ++ natDigits l.length ++ str ")")
      else .error (str "ValueError: too many values to unpack (expected 5)")

/-- `RunnerService.run_once` up to the adapter unpack.  The statement list
after the unpack is not modelled: it is unreachable, because the unpack of
the adapter's 4-tuple raises before it, and no handler between the raise
and the `INSERT INTO runs` catches `ValueError`. -/
def run_once (agentFetch : SourceCfg → Except (List Char) (List JobDict))
    (filterKeep : JobDict → Bool) (h1bLoadErrors : List (List Char))
    (discovered : List (List Char × List Char × List Char × List Char × List Char))
    (sources : List SourceCfg) : Except (List Char) Unit := do
  let _ ← unpackFive
    (fetchJobsViaLegacyTuple agentFetch filterKeep h1bLoadErrors discovered sources)
  pure ()

/-! ## `job_fetcher_legacy.py`: location helpers and `FilterAgent` -/

/-- `DEFAULT_VISA_RESTRICTION_PHRASES` (legacy lines 56-88), in order. -/
def DEFAULT_VISA_RESTRICTION_PHRASES : List (List Char) :=
  [str "no visa sponsorship",
   str "visa sponsorship is not available",
   str "sponsorship not available",
   str "not eligible for visa sponsorship",
   str "will not sponsor",
   str "we do not sponsor",
   str "no sponsorship",
   str "no future sponsorship",
   str "without visa sponsorship",
   str "cannot sponsor",
   str "unable to sponsor",
   str "do not provide sponsorship",
   str "must be authorized to work in the united states without sponsorship",
   str "must be authorized to work in the u.s. without sponsorship",
   str "authorized to work in the us without sponsorship",
   str "authorized to work in the u.s. without sponsorship",
   str "work authorization without sponsorship",
   str "no c2c",
   str "no corp to corp",
   str "no corp-to-corp",
   str "us citizens only",
   str "u.s. citizens only",
   str "u.s. citizen only",
   str "us citizen required",
   str "u.s. citizen required",
   str "must be a u.s. citizen",
   str "must be a us citizen",
   str "citizenship required",
   str "security clearance",
   str "clearance required",
   str "must be able to obtain a security clearance",
   str "must be eligible for a security clearance"]

/-- `STATE_NAME_TO_CODE`, in insertion order. -/
def STATE_NAME_TO_CODE : List (List Char × List Char) :=
  [(str "ALABAMA", str "AL"), (str "ALASKA", str "AK"), (str "ARIZONA", str "AZ"),
   (str "ARKANSAS", str "AR"), (str "CALIFORNIA", str "CA"), (str "COLORADO", str "CO"),
   (str "CONNECTICUT", str "CT"), (str "DELAWARE", str "DE"), (str "FLORIDA", str "FL"),
   (str "GEORGIA", str "GA"), (str "HAWAII", str "HI"), (str "IDAHO", str "ID"),
   (str "ILLINOIS", str "IL"), (str "INDIANA", str "IN"), (str "IOWA", str "IA"),
   (str "KANSAS", str "KS"), (str "KENTUCKY", str "KY"), (str "LOUISIANA", str "LA"),
   (str "MAINE", str "ME"), (str "MARYLAND", str "MD"), (str "MASSACHUSETTS", str "MA"),
   (str "MICHIGAN", str "MI"), (str "MINNESOTA", str "MN"), (str "MISSISSIPPI", str "MS"),
   (str "MISSOURI", str "MO"), (str "MONTANA", str "MT"), (str "NEBRASKA", str "NE"),
   (str "NEVADA", str "NV"), (str "NEW HAMPSHIRE", str "NH"), (str "NEW JERSEY", str "NJ"),
   (str "NEW MEXICO", str "NM"), (str "NEW YORK", str "NY"), (str "NORTH CAROLINA", str "NC"),
   (str "NORTH DAKOTA", str "ND"), (str "OHIO", str "OH"), (str "OKLAHOMA", str "OK"),
   (str "OREGON", str "OR"), (str "PENNSYLVANIA", str "PA"), (str "RHODE ISLAND", str "RI"),
   (str "SOUTH CAROLINA", str "SC"), (str "SOUTH DAKOTA", str "SD"), (str "TENNESSEE", str "TN"),
   (str "TEXAS", str "TX"), (str "UTAH", str "UT"), (str "VERMONT", str "VT"),
   (str "VIRGINIA", str "VA"), (str "WASHINGTON", str "WA"), (str "WEST VIRGINIA", str "WV"),
   (str "WISCONSIN", str "WI"), (str "WYOMING", str "WY"),
   (str "DISTRICT OF COLUMBIA", str "DC")]

/-- `CITY_TO_STATE`, in insertion order. -/
def CITY_TO_STATE : List (List Char × List Char) :=
  [(str "SEATTLE", str "WA"), (str "BELLEVUE", str "WA"), (str "REDMOND", str "WA"),
   (str "SAN FRANCISCO", str "CA"), (str "SOUTH SAN FRANCISCO", str "CA"),
   (str "MOUNTAIN VIEW", str "CA"), (str "SUNNYVALE", str "CA"), (str "PALO ALTO", str "CA"),
   (str "SAN JOSE", str "CA"), (str "LOS ANGELES", str "CA"), (str "SANTA MONICA", str "CA"),
   (str "SAN DIEGO", str "CA"), (str "IRVINE", str "CA"), (str "SACRAMENTO", str "CA"),
   (str "PORTLAND", str "OR"), (str "BOULDER", str "CO"), (str "DENVER", str "CO"),
   (str "AUSTIN", str "TX"), (str "DALLAS", str "TX"), (str "HOUSTON", str "TX"),
   (str "SAN ANTONIO", str "TX"), (str "CHICAGO", str "IL"), (str "MINNEAPOLIS", str "MN"),
   (str "NEW YORK", str "NY"), (str "BROOKLYN", str "NY"), (str "JERSEY CITY", str "NJ"),
   (str "BOSTON", str "MA"), (str "CAMBRIDGE", str "MA"), (str "WASHINGTON", str "DC"),
   (str "ARLINGTON", str "VA"), (str "ALEXANDRIA", str "VA"), (str "ATLANTA", str "GA"),
   (str "MIAMI", str "FL"), (str "PHILADELPHIA", str "PA"), (str "RALEIGH", str "NC"),
   (str "CHARLOTTE", str "NC")]

/-- The alternatives of `US_HINT_RE`, in order. -/
def usHintTerms : List (List Char) :=
  [str "united states", str "u.s.a.", str "usa", str "u.s.", str "us"]

/-- `bool(US_HINT_RE.search(s))`: the case-insensitive, word-bounded US
hint (boundaries are unchanged by lowercasing). -/
def usHintSearch (s : List Char) : Bool :=
  searchBoundedAny usHintTerms (pyLower s)

/-- `'A' ≤ c ≤ 'Z'`. -/
def isUpperAZ (c : Char) : Bool := 'A' ≤ c && c ≤ 'Z'

/-- After `(?:,\s*|\s+)` has been consumed: `([A-Z]{2})(?:\b|$)` — two
uppercase letters whose follower is absent or a non-word character. -/
def twoUpperThenBoundary : List Char → Option (List Char)
  | a :: b :: rest =>
      if isUpperAZ a && isUpperAZ b &&
          (match rest with | [] => true | c :: _ => ¬ isWordChar c) then
        some [a, b]
      else none
  | _ => none

/-- A `STATE_RE` match attempt anchored at the head of the list.  `\s*` and
`\s+` are effectively possessive here: whitespace never overlaps `[A-Z]`,
so the maximal run is the only viable one. -/
def stateReAt : List Char → Option (List Char)
  | [] => none
  | c :: tail =>
      if c = ',' then twoUpperThenBoundary (tail.dropWhile isPySpace)
      else if isPySpace c then twoUpperThenBoundary (tail.dropWhile isPySpace)
      else none

/-- `STATE_RE.search(part)`: leftmost match, returning the captured code. -/
def stateReSearch : List Char → Option (List Char)
  | [] => none
  | c :: tail =>
      match stateReAt (c :: tail) with
      | some code => some code
      | none => stateReSearch tail

/-- The single-character delimiters of the location-splitting regex. -/
def splitDelimChars : List Char := ['/', '|', ';', '•']

/-- `\bor\b` (case-insensitive) matches at position `pos` of `orig`. -/
def orDelimAt (orig : List Char) (pos : Nat) : Bool :=
  boundaryAt orig pos && (str "or").isPrefixOf (pyLower (orig.drop pos)) &&
    boundaryAt orig (pos + 2)

/-- `re.split(r"\bor\b|/|\||;|•", s, flags=re.IGNORECASE)`: walk the string
once, cutting at each delimiter occurrence. -/
def splitLocAux (orig : List Char) : Nat → List Char → List Char → List (List Char)
  | _, cur, [] => [cur.reverse]
  | pos, cur, c :: rest =>
      if orDelimAt orig pos then
        cur.reverse ::
          (match rest with
           | [] => [[]]
           | _ :: rest2 => splitLocAux orig (pos + 2) [] rest2)
      else if c ∈ splitDelimChars then cur.reverse :: splitLocAux orig (pos + 1) [] rest
      else splitLocAux orig (pos + 1) (c :: cur) rest

/-- Split a location string at `or` / `/` / `|` / `;` / `•`. -/
def splitLocParts (s : List Char) : List (List Char) := splitLocAux s 0 [] s

/-- Full-state-name lookup: the first dict entry whose name occurs in the
uppercased part. -/
def findStateName (upper : List Char) : Option (List Char) :=
  (STATE_NAME_TO_CODE.find? fun e => hasSub e.1 upper).map (·.2)

/-- `re.sub(r"[^A-Z\s]", " ", part.upper())` then whitespace collapse and
strip. -/
def cleanedForCity (part : List Char) : List Char :=
  pyStrip (collapseWs
    ((pyUpper part).map fun c => if isUpperAZ c || isPySpace c then c else ' '))

/-- Stable insertion keeping longer strings first (Python
`sorted(keys, key=len, reverse=True)` is stable). -/
def insertByLenDesc (x : List Char) : List (List Char) → List (List Char)
  | [] => [x]
  | y :: ys => if y.length > x.length then y :: insertByLenDesc x ys else x :: y :: ys

/-- Sort strings by descending length, stable. -/
def sortByLenDesc (l : List (List Char)) : List (List Char) :=
  l.foldr insertByLenDesc []

/-- City heuristic: longest-first city-name substring lookup. -/
def cityLookup (cleaned : List Char) : Option (List Char) :=
  ((sortByLenDesc (CITY_TO_STATE.map (·.1))).find? fun city => hasSub city cleaned).bind
    fun city => (CITY_TO_STATE.find? fun e => e.1 = city).map (·.2)

/-- `extract_us_state_code` (legacy lines 262-287). -/
def extract_us_state_code (location : List Char) : Option (List Char) :=
  if location = [] then none
  else
    let pieces := splitLocParts (pyStrip location)
    let parts := (pieces.filter fun p => p ≠ [] ∧ pyStrip p ≠ []).map pyStrip
    parts.findSome? fun part =>
      match stateReSearch part with
      | some code => some code
      | none =>
          match findStateName (pyUpper part) with
          | some code => some code
          | none => cityLookup (cleanedForCity part)

/-- `classify_work_mode` (legacy lines 290-298). -/
def classify_work_mode (text : List Char) : List Char :=
  let t := pyLower text
  if hasSub (str "hybrid") t then str "hybrid"
  else if hasSub (str "remote") t then str "remote"
  else if hasSub (str "on-site") t || hasSub (str "onsite") t || hasSub (str "on site") t then
    str "onsite"
  else str "unknown"

/-- The alternation of the second remote-US regex, in order. -/
def remoteUsTerms : List (List Char) := [str "us", str "u.s.", str "united states"]

/-- `re.search(r"\bremote\b.*\b(us|u\.s\.|united states)\b", s, IGNORECASE)`:
a word-bounded `remote`, then (no newline — `.` excludes `\n`) a
word-bounded US term. -/
def remoteThenUsSearch (low : List Char) : Bool :=
  (List.range (low.length + 1)).any fun i =>
    boundedAt low (str "remote") i &&
    (List.range (low.length + 1)).any fun j =>
      i + 6 ≤ j &&
      (((low.drop (i + 6)).take (j - (i + 6))).all fun c => c ≠ '\n') &&
      remoteUsTerms.any fun t => boundedAt low t j

/-- `is_remote_us` (legacy lines 301-308). -/
def is_remote_us (location : List Char) : Bool :=
  let lt := pyLower location
  if ¬ hasSub (str "remote") lt then false
  else if usHintSearch location then true
  else if remoteThenUsSearch lt then true
  else false

/-- `is_us_location` (legacy lines 311-316). -/
def is_us_location (location : List Char) : Bool :=
  if location = [] then false
  else is_remote_us location || (extract_us_state_code location).isSome ||
    usHintSearch location

/-- The `NormalizedJob` dataclass fields read by the filter and adapter. -/
structure NormalizedJob where
  source_type : List Char := []
  company_label : List Char := []
  company_slug : List Char := []
  employer_name : List Char := []
  job_id : List Char := []
  title : List Char := []
  location : List Char := []
  description : List Char := []
  url : List Char := []
  department : List Char := []
  team : List Char := []
  work_mode : List Char := str "unknown"
  detected_from_url : List Char := []
  past_h1b_support : List Char := str "no"
deriving Repr, DecidableEq

/-- The settings consumed by `FilterAgent.__init__` (`config.get` with the
defaults of the source; `visa_restriction_phrases = None` selects the
built-in list). -/
structure LegacyConfig where
  role_keywords : List (List Char) := []
  include_keywords : List (List Char) := []
  exclude_keywords : List (List Char) := []
  visa_restriction_phrases : Option (List (List Char)) := none
  preferred_states : List (List Char) := []
  allow_remote_us : Bool := true
  work_mode_preference : List Char := []
deriving Repr, DecidableEq

/-- The state built by `FilterAgent.__init__` (legacy lines 1519-1535). -/
structure FilterAgent where
  role_keywords : List (List Char)
  include_keywords : List (List Char)
  exclude_keywords : List (List Char)
  preferred_states : List (List Char)
  allow_remote_us : Bool
  work_mode_preference : List Char
deriving Repr, DecidableEq

/-- `FilterAgent(config)`. -/
def FilterAgent.init (config : LegacyConfig) : FilterAgent :=
  { role_keywords := config.role_keywords
    include_keywords := config.include_keywords
    exclude_keywords := config.exclude_keywords ++
      (match config.visa_restriction_phrases with
       | none => DEFAULT_VISA_RESTRICTION_PHRASES
       | some l => l)
    preferred_states := config.preferred_states.map pyUpper
    allow_remote_us := config.allow_remote_us
    work_mode_preference :=
      if config.work_mode_preference = [] then str "any"
      else pyLower config.work_mode_preference }

/-- `FilterAgent._first_match`: the first needle whose stripped, lowered
form occurs in the lowered haystack; the original needle is returned. -/
def firstMatch (haystack : List Char) (needles : List (List Char)) :
    Option (List Char) :=
  let h := pyLower haystack
  needles.find? fun n => pyLower (pyStrip n) ≠ [] && hasSub (pyLower (pyStrip n)) h

/-- `FilterAgent.explain` (legacy lines 1548-1599): the gate sequence with
its ordered reason trail. -/
def FilterAgent.explain (fa : FilterAgent) (job : NormalizedJob) :
    Bool × List (List Char) :=
  if ¬ is_us_location job.location then (false, [str "location:not_us"])
  else
    let haystack := job.title ++ str "\n" ++ job.description ++ str "\n" ++ job.location
    match (if fa.exclude_keywords ≠ [] then firstMatch haystack fa.exclude_keywords
           else none) with
    | some hit => (false, [str "exclude:matched:" ++ hit])
    | none =>
        let titleDesc := job.title ++ str "\n" ++ job.description
        let roleStep : Option (Bool × List (List Char)) × List (List Char) :=
          if fa.role_keywords ≠ [] then
            match firstMatch titleDesc fa.role_keywords with
            | none => (some (false, [str "role_keywords:no_match"]), [])
            | some hit => (none, [str "role_keywords:matched:" ++ hit])
          else (none, [])
        match roleStep with
        | (some result, _) => result
        | (none, reasons1) =>
            let includeStep : Option (Bool × List (List Char)) × List (List Char) :=
              if fa.include_keywords ≠ [] then
                match firstMatch haystack fa.include_keywords with
                | none => (some (false, reasons1 ++ [str "include_keywords:no_match"]), [])
                | some hit => (none, reasons1 ++ [str "include_keywords:matched:" ++ hit])
              else (none, reasons1)
            match includeStep with
            | (some result, _) => result
            | (none, reasons2) =>
                if fa.work_mode_preference ≠ str "any" ∧
                    job.work_mode ≠ fa.work_mode_preference then
                  (false, reasons2 ++ [str "work_mode:mismatch:" ++ job.work_mode ++
                    str "->" ++ fa.work_mode_preference])
                else if is_remote_us job.location then
                  if ¬ fa.allow_remote_us then
                    (false, reasons2 ++ [str "remote_us:blocked"])
                  else (true, reasons2 ++ [str "remote_us:allowed"])
                else if fa.preferred_states ≠ [] then
                  match extract_us_state_code job.location with
                  | none => (false, reasons2 ++ [str "state:missing"])
                  | some st =>
                      if st ∉ fa.preferred_states then
                        (false, reasons2 ++ [str "state:not_allowed:" ++ st])
                      else (true, reasons2 ++ [str "state:allowed:" ++ st])
                else (true, reasons2)

/-- `FilterAgent.keep`. -/
def FilterAgent.keep (fa : FilterAgent) (job : NormalizedJob) : Bool :=
  (fa.explain job).1

/-! ## `CareerUrlAgent._iterate_list_pages`

The loop is translated statement by statement; its environment (HTTP
fetches including the `mode == "playwright"` branch of `fetch_one`,
BeautifulSoup-based pagination-candidate discovery, URL synthesis, and the
wall clock) is a record of oracles.  `fetchOne` is indexed by the attempt
number (network responses need not be reproducible); `none` models a
raised exception, `some ([], u)` the `if not html` branch.  `timeOk t`
is the `t`-th reading of `(time.time() - start) <= time_budget_s`.
Besides the `(html, final_url)` pages, the model returns the trace of
`fetch_one` calls as `(url, returned-without-raising)` pairs. -/

/-- Oracle environment for the pagination loop. -/
structure PagEnv where
  netloc : List Char → List Char
  fetchOne : Nat → List Char → Option (List Char × List Char)
  discover : List Char → List Char →
    List (List Char) × Option Nat × Option (List Char × Nat × Nat)
  buildPageUrls : List Char → Nat → List (List Char)
  buildNumericUrls : List Char → List Char × Nat × Nat → List (List Char)
  timeOk : Nat → Bool

/-- The `while` loop of `_iterate_list_pages` (legacy lines 686-733).
State: frontier `q`, `seen`, collected `out`, attempt counter, clock-read
counter.  Returns the pages and the fetch trace. -/
def iterPagesLoop (env : PagEnv) (maxPages : Nat) (baseNetloc : List Char) :
    List (List Char) → List (List Char) → List (List Char × List Char) →
    Nat → Nat →
    List (List Char × List Char) × List (List Char × Bool)
  | [], _, out, _, _ => (out, [])
  | u :: qrest, seen, out, attempt, tick =>
      if maxPages ≤ out.length then (out, [])
      else if ¬ env.timeOk tick then (out, [])
      else if u = [] then iterPagesLoop env maxPages baseNetloc qrest seen out attempt (tick + 1)
      else if env.netloc u ≠ [] ∧ env.netloc u ≠ baseNetloc then
        iterPagesLoop env maxPages baseNetloc qrest seen out attempt (tick + 1)
      else if u ∈ seen then
        iterPagesLoop env maxPages baseNetloc qrest seen out attempt (tick + 1)
      else
        match env.fetchOne attempt u with
        | none =>
            let (pages, trace) :=
              iterPagesLoop env maxPages baseNetloc qrest seen out (attempt + 1) (tick + 1)
            (pages, (u, false) :: trace)
        | some (html, finalUrl) =>
            if html = [] then
              let (pages, trace) :=
                iterPagesLoop env maxPages baseNetloc qrest (seen ++ [u]) out
                  (attempt + 1) (tick + 1)
              (pages, (u, true) :: trace)
            else
              let seen1 := seen ++ [u, finalUrl]
              let out1 := out ++ [(html, finalUrl)]
              if maxPages ≤ out1.length ∨ ¬ env.timeOk (tick + 1) then
                (out1, [(u, true)])
              else
                let (nls, maxPageNum, numericParam) := env.discover html finalUrl
                let cand1 := nls.filter fun nu =>
                  nu ≠ [] ∧ env.netloc nu = baseNetloc ∧ nu ∉ seen1
                let cand2 :=
                  match maxPageNum with
                  | some n =>
                      if n ≠ 0 then (env.buildPageUrls finalUrl n).filter (· ∉ seen1)
                      else []
                  | none => []
                let cand3 :=
                  match numericParam with
                  | some np => (env.buildNumericUrls finalUrl np).filter (· ∉ seen1)
                  | none => []
                let (pages, trace) :=
                  iterPagesLoop env maxPages baseNetloc
                    (qrest ++ cand1 ++ cand2 ++ cand3) seen1 out1
                    (attempt + 1) (tick + 2)
                (pages, (u, true) :: trace)
  termination_by q _ out _ _ => (maxPages - out.length, q.length)
  decreasing_by
    all_goals simp_all only [List.length_cons, List.length_append, not_le]
    · exact Prod.Lex.right _ (by omega)
    · exact Prod.Lex.right _ (by omega)
    · exact Prod.Lex.right _ (by omega)
    · exact Prod.Lex.right _ (by omega)
    · exact Prod.Lex.right _ (by omega)
    · exact Prod.Lex.left _ _ (by omega)

/-- `_iterate_list_pages(url, mode, max_pages, timeout, time_budget_s)`
(mode and timeouts live inside the `fetchOne` and `timeOk` oracles). -/
def iterate_list_pages (env : PagEnv) (url : List Char) (maxPages : Nat) :
    List (List Char × List Char) × List (List Char × Bool) :=
  let mp := if maxPages ≤ 1 then 1 else maxPages
  iterPagesLoop env mp (env.netloc url) [url] [] [] 0 0

/-! ## `CareerUrlAgent`: extraction cascade and embedded-ATS discovery -/

/-- A raw career-page job dict (the keys the cascade reads or writes;
`location` holds the `{"name": ...}` payload's name). -/
structure RawJob where
  id : List Char := []
  title : List Char := []
  location : List Char := []
  content : List Char := []
  absolute_url : List Char := []
  url : List Char := []
  detected_source_type : List Char := []
  detected_company_slug : List Char := []
  detected_from_url : List Char := []
deriving Repr, DecidableEq

/-- `(j.get("absolute_url") or j.get("url") or "").strip()`. -/
def rawUrlOf (j : RawJob) : List Char :=
  pyStrip (if j.absolute_url ≠ [] then j.absolute_url else j.url)

/-- Recursion for `_dedupe_jobs_by_url` with its `seen` set. -/
def dedupeJobsAux (seen : List (List Char)) : List RawJob → List RawJob
  | [] => []
  | j :: rest =>
      let u := rawUrlOf j
      if u = [] then dedupeJobsAux seen rest
      else if u ∈ seen then dedupeJobsAux seen rest
      else j :: dedupeJobsAux (seen ++ [u]) rest

/-- `CareerUrlAgent._dedupe_jobs_by_url` (legacy lines 1004-1015). -/
def dedupe_jobs_by_url (jobs : List RawJob) : List RawJob :=
  dedupeJobsAux [] jobs

/-- A character allowed in an ATS slug match (`[a-z0-9-]`). -/
def isSlugChar (c : Char) : Bool :=
  ('a' ≤ c && c ≤ 'z') || ('0' ≤ c && c ≤ '9') || c = '-'

/-- `_GH_RESERVED_SLUGS`. -/
def GH_RESERVED_SLUGS : List (List Char) :=
  [str "embed", str "jobs", str "job", str "departments", str "department",
   str "positions", str "position", str "postings", str "posting", str "search"]

/-- `_is_valid_gh_slug` (legacy lines 116-125). -/
def is_valid_gh_slug (slug : List Char) : Bool :=
  let s := pyLower (pyStrip slug)
  if s = [] then false
  else if s ∈ GH_RESERVED_SLUGS then false
  else if 64 < s.length then false
  else s.all isSlugChar

/-- A match of `greenhouse\.io/[^\s\"']*\bfor=([a-z0-9-]+)` anchored at
`i`: the star consumes within the run of non-space, non-quote characters;
backtracking makes the slug start at the last viable `for=`. -/
def ghForMatchAt (low : List Char) (i : Nat) : Option (List Char) :=
  if (str "greenhouse.io/").isPrefixOf (low.drop i) then
    let runStart := i + 14
    let runLen :=
      ((low.drop runStart).takeWhile fun c =>
        ¬ (isPySpace c || c = '"' || c = '\'')).length
    let js := ((List.range (runLen + 1)).map fun k => runStart + k).filter fun j =>
      boundaryAt low j && (str "for=").isPrefixOf (low.drop j) &&
        (match low.drop (j + 4) with
         | c :: _ => isSlugChar c
         | [] => false)
    match js.getLast? with
    | some j => some ((low.drop (j + 4)).takeWhile isSlugChar)
    | none => none
  else none

/-- `re.search` for the `for=<slug>` embed pattern: leftmost match. -/
def ghForSearch (low : List Char) : Option (List Char) :=
  (List.range (low.length + 1)).findSome? fun i => ghForMatchAt low i

/-- A maximal `([a-z0-9-]+)` capture at a position, with the match end. -/
def slugCaptureAt (low : List Char) (p : Nat) : Option (List Char × Nat) :=
  let slug := (low.drop p).takeWhile isSlugChar
  if slug = [] then none else some (slug, p + slug.length)

/-- `_RE_GH_API` anchored at `i`. -/
def ghApiMatchAt (low : List Char) (i : Nat) : Option (List Char × Nat) :=
  if (str "boards-api.greenhouse.io/").isPrefixOf (low.drop i) then
    let p := i + 25
    let p2 := if (str "v1/").isPrefixOf (low.drop p) then p + 3 else p
    if (str "boards/").isPrefixOf (low.drop p2) then slugCaptureAt low (p2 + 7)
    else none
  else none

/-- `_RE_GH_HOSTED_ANY` anchored at `i` (alternatives in order). -/
def ghHostedMatchAt (low : List Char) (i : Nat) : Option (List Char × Nat) :=
  if (str "boards.greenhouse.io/").isPrefixOf (low.drop i) then
    slugCaptureAt low (i + 21)
  else if (str "job-boards.greenhouse.io/").isPrefixOf (low.drop i) then
    slugCaptureAt low (i + 25)
  else none

/-- `_RE_LEVER_API` anchored at `i`. -/
def leverApiMatchAt (low : List Char) (i : Nat) : Option (List Char × Nat) :=
  if (str "api.lever.co/v0/postings/").isPrefixOf (low.drop i) then
    slugCaptureAt low (i + 25)
  else none

/-- `_RE_LEVER_HOSTED` anchored at `i`. -/
def leverHostedMatchAt (low : List Char) (i : Nat) : Option (List Char × Nat) :=
  if (str "jobs.lever.co/").isPrefixOf (low.drop i) then
    slugCaptureAt low (i + 14)
  else none

/-- `finditer`: scan left to right, resuming after each match end. -/
def scanMatchesAux (f : Nat → Option (List Char × Nat)) :
    Nat → Nat → List (List Char)
  | 0, _ => []
  | fuel + 1, i =>
      match f i with
      | some (slug, e) => slug :: scanMatchesAux f fuel (if i < e then e else i + 1)
      | none => scanMatchesAux f fuel (i + 1)

/-- All captures of a `finditer` over `low`. -/
def scanMatches (f : Nat → Option (List Char × Nat)) (low : List Char) :
    List (List Char) :=
  scanMatchesAux f (low.length + 1) 0

/-- The `rank` dict in `_detect_embedded_ats`. -/
def atsRank (t : List Char) : Nat :=
  if t = str "greenhouse" then 0 else if t = str "lever" then 1 else 9

/-- Strict comparison on `(rank.get(type, 9), len(slug))`. -/
def atsKeyLt (a b : List Char × List Char) : Bool :=
  atsRank a.1 < atsRank b.1 ||
    (atsRank a.1 = atsRank b.1 && a.2.length < b.2.length)

/-- Stable ascending insertion for the candidate sort. -/
def insAtsAsc (x : List Char × List Char) :
    List (List Char × List Char) → List (List Char × List Char)
  | [] => [x]
  | y :: ys => if atsKeyLt y x then y :: insAtsAsc x ys else x :: y :: ys

/-- `list.sort(key=lambda x: (rank.get(x[0], 9), len(x[1])))`, stable. -/
def sortAts (l : List (List Char × List Char)) : List (List Char × List Char) :=
  l.foldr insAtsAsc []

/-- `CareerUrlAgent._detect_embedded_ats` (legacy lines 1043-1096):
`(type, slug)` candidates found in the page, de-duplicated, ranked,
truncated to five. -/
def detect_embedded_ats (html finalUrl : List Char) : List (List Char × List Char) :=
  let blob := (finalUrl ++ str "\n" ++ html).take 300000
  let low := pyLower blob
  let ghFor : List (List Char × List Char) :=
    match ghForSearch low with
    | some slug =>
        if is_valid_gh_slug (pyLower (pyStrip slug)) then
          [(str "greenhouse", pyLower (pyStrip slug))]
        else []
    | none => []
  let ghApi := ((scanMatches (ghApiMatchAt low) low).map fun s => pyLower (pyStrip s)
    ).filter is_valid_gh_slug |>.map fun s => (str "greenhouse", s)
  let ghHosted := ((scanMatches (ghHostedMatchAt low) low).map fun s => pyLower (pyStrip s)
    ).filter is_valid_gh_slug |>.map fun s => (str "greenhouse", s)
  let lvApi := ((scanMatches (leverApiMatchAt low) low).map fun s => pyLower (pyStrip s)
    ).filter (· ≠ []) |>.map fun s => (str "lever", s)
  let lvHosted := ((scanMatches (leverHostedMatchAt low) low).map fun s => pyLower (pyStrip s)
    ).filter (· ≠ []) |>.map fun s => (str "lever", s)
  let found := ghFor ++ ghApi ++ ghHosted ++ lvApi ++ lvHosted
  let uniq := found.foldl (fun acc ts => if ts ∈ acc then acc else acc ++ [ts]) []
  (sortAts uniq).take 5

/-- The three Oracle Recruiting Cloud URL patterns (`\d+` needs one digit
for a match to exist; the optional trailing slash cannot change that). -/
def literalThenDigit (lit ul : List Char) : Bool :=
  (List.range (ul.length + 1)).any fun i =>
    lit.isPrefixOf (ul.drop i) &&
      (match ul.drop (i + lit.length) with
       | c :: _ => c.isDigit
       | [] => false)

/-- `/(jobs|careers|positions|listing)/[^?#]*\d{4,}(\b|/|$)`: existence of
a match (the digit run must be followed by a non-word character or the
end; `/` is covered by `\b`). -/
def jobsPathDigitsRe (ul : List Char) : Bool :=
  (List.range (ul.length + 1)).any fun i =>
    [str "jobs", str "careers", str "positions", str "listing"].any fun w =>
      (str "/" ++ w ++ str "/").isPrefixOf (ul.drop i) &&
      (let m := i + w.length + 2
       (List.range (ul.length + 1)).any fun j =>
         m ≤ j &&
         (((ul.drop m).take (j - m)).all fun c => c ≠ '?' && c ≠ '#') &&
         (let run := (ul.drop j).takeWhile Char.isDigit
          4 ≤ run.length &&
          (match ul.drop (j + run.length) with
           | [] => true
           | c :: _ => ¬ isWordChar c)))

/-- `is_high_signal_job_url` (legacy lines 1018-1034). -/
def is_high_signal_job_url (u : List Char) : Bool :=
  let ul := pyLower u
  if hasSub (str "/jobs/listing/") ul then true
  else if hasSub (str "gh_jid=") ul then true
  else if hasSub (str "boards.greenhouse.io") ul ||
      hasSub (str "job-boards.greenhouse.io") ul then true
  else if hasSub (str "lever.co") ul &&
      (hasSub (str "/apply") ul || hasSub (str "/postings/") ul) then true
  else if literalThenDigit (str "/en/sites/jobsearch/job/") ul ||
      literalThenDigit (str "/jobsearch/job/") ul ||
      literalThenDigit (str "/requisitions/") ul then true
  else jobsPathDigitsRe ul

/-- `CareerUrlAgent._keep_high_signal_jobs`. -/
def keep_high_signal_jobs (jobs : List RawJob) : List RawJob :=
  jobs.filter fun j => rawUrlOf j ≠ [] && is_high_signal_job_url (rawUrlOf j)

/-- Oracle environment for `CareerUrlAgent.fetch`: the HTML extractors
(BeautifulSoup / JSON walking), the two ATS API agents, the Playwright
renderer, the detail-link fallback, and the two feature-flag environment
variables. -/
structure CareerEnv where
  pagEnv : PagEnv
  extractListing : List Char → List Char → List RawJob
  extractJsonld : List Char → List Char → List RawJob
  extractEmbedded : List Char → List Char → List RawJob
  ghFetch : List Char → List Char → Except (List Char) (List RawJob)
  leverFetch : List Char → List Char → Except (List Char) (List RawJob)
  renderPlaywright : List Char → Option (List Char × List Char)
  discoverAndFetchLinks : List Char → List Char → List RawJob
  autoPlaywrightFlag : Bool
  playwrightFlag : Bool

/-- Tag API-agent results with the `_detected_*` keys. -/
def tagDetected (t slug url0 : List Char) (jobs : List RawJob) : List RawJob :=
  jobs.map fun j =>
    { j with detected_source_type := t, detected_company_slug := slug,
             detected_from_url := url0 }

/-- The `for d in detected:` loop of `CareerUrlAgent.fetch` (both the
static and the Playwright variant): first non-empty, non-raising API
result wins; failures and empty results continue. -/
def atsTryList (env : CareerEnv) (label url0 : List Char) :
    List (List Char × List Char) → Option (List RawJob)
  | [] => none
  | (t, slug) :: rest =>
      if t = [] ∨ slug = [] then atsTryList env label url0 rest
      else if t = str "greenhouse" then
        match env.ghFetch slug label with
        | .ok ghJobs =>
            if ghJobs ≠ [] then some (tagDetected (str "greenhouse") slug url0 ghJobs)
            else atsTryList env label url0 rest
        | .error _ => atsTryList env label url0 rest
      else if t = str "lever" then
        match env.leverFetch slug label with
        | .ok lvJobs =>
            if lvJobs ≠ [] then some (tagDetected (str "lever") slug url0 lvJobs)
            else atsTryList env label url0 rest
        | .error _ => atsTryList env label url0 rest
      else atsTryList env label url0 rest

/-- A `career_url` source entry as read by `CareerUrlAgent.fetch`. -/
structure CareerSrc where
  url : List Char := []
  mode : List Char := []
deriving Repr, DecidableEq

/-- `CareerUrlAgent.fetch` (legacy lines 510-655): the strategy cascade —
list-page extraction, then high-signal JSON-LD / embedded-state
extraction, then embedded-ATS auto-discovery, then optional Playwright
escalation, then the detail-link fallback. -/
def CareerUrlAgent.fetch (env : CareerEnv) (label : List Char) (src : CareerSrc)
    (maxPages : Nat) : List RawJob :=
  let url := pyStrip src.url
  let mode := pyLower (pyStrip (if src.mode = [] then str "requests" else src.mode))
  if url = [] then []
  else
    let pages := (iterate_list_pages env.pagEnv url maxPages).1
    match pages with
    | [] => []
    | (html0, url0) :: _ =>
        let listingJobs := dedupe_jobs_by_url
          (pages.flatMap fun p => env.extractListing p.1 p.2)
        if listingJobs ≠ [] then listingJobs
        else
          let jsonJobs := dedupe_jobs_by_url (keep_high_signal_jobs
            (pages.flatMap fun p => env.extractJsonld p.1 p.2 ++ env.extractEmbedded p.1 p.2))
          if jsonJobs ≠ [] then jsonJobs
          else
            match atsTryList env label url0 (detect_embedded_ats html0 url0) with
            | some apiJobs => apiJobs
            | none =>
                let pwJobs : Option (List RawJob) :=
                  if mode = str "requests" ∧ env.autoPlaywrightFlag then
                    if env.playwrightFlag then
                      match env.renderPlaywright url0 with
                      | none => none
                      | some (htmlPw, urlPw) =>
                          if htmlPw = [] then none
                          else
                            let listingPw := dedupe_jobs_by_url
                              (env.extractListing htmlPw urlPw)
                            if listingPw ≠ [] then some listingPw
                            else
                              let jsonPw := dedupe_jobs_by_url (keep_high_signal_jobs
                                (env.extractJsonld htmlPw urlPw ++
                                  env.extractEmbedded htmlPw urlPw))
                              if jsonPw ≠ [] then some jsonPw
                              else atsTryList env label url0
                                (detect_embedded_ats htmlPw urlPw)
                    else none
                  else none
                match pwJobs with
                | some r => r
                | none => dedupe_jobs_by_url (env.discoverAndFetchLinks html0 url0)

/-! ## Concrete oracle environments for the C8 and C9 scenarios -/

/-- A page graph where page `"a"` links to `"b"` twice, the first fetch of
`"b"` raises and the second succeeds (`fetchOne` is indexed by the attempt
number). -/
def cexPagEnv : PagEnv where
  netloc := fun _ => ['h']
  fetchOne := fun a _ =>
    match a with
    | 0 => some (['H'], ['a'])
    | 1 => none
    | _ => some (['B'], ['b'])
  discover := fun h _ =>
    if h = ['H'] then ([['b'], ['b']], none, none) else ([], none, none)
  buildPageUrls := fun _ _ => []
  buildNumericUrls := fun _ _ => []
  timeOk := fun _ => true

/-- A wrapper page embedding the Greenhouse `?for=acme` reference (the
Cedar pattern of `_detect_embedded_ats`). -/
def c9Html : List Char :=
  str "<div>boards.greenhouse.io/embed/job_board?for=acme</div>"

/-- A one-page graph that serves `c9Html` at final URL `"u0"`. -/
def c9PagEnv : PagEnv where
  netloc := fun _ => ['h']
  fetchOne := fun _ _ => some (c9Html, str "u0")
  discover := fun _ _ => ([], none, none)
  buildPageUrls := fun _ _ => []
  buildNumericUrls := fun _ _ => []
  timeOk := fun _ => true

/-- The job scraped from the wrapper page's listing markup. -/
def scrapedJob : RawJob := { title := str "Scraped role", url := str "u0/jobs/1" }

/-- The job served by the Greenhouse API for slug `acme`. -/
def apiJob : RawJob :=
  { title := str "API role",
    absolute_url := str "https://boards.greenhouse.io/acme/jobs/123" }

/-- Career environment where listing extraction succeeds on the wrapper
page while the Greenhouse API agent would also succeed for `acme`. -/
def c9ScrapeEnv : CareerEnv where
  pagEnv := c9PagEnv
  extractListing := fun _ _ => [scrapedJob]
  extractJsonld := fun _ _ => []
  extractEmbedded := fun _ _ => []
  ghFetch := fun slug _ =>
    if slug = str "acme" then .ok [apiJob] else .error (str "http")
  leverFetch := fun _ _ => .error (str "http")
  renderPlaywright := fun _ => none
  discoverAndFetchLinks := fun _ _ => []
  autoPlaywrightFlag := false
  playwrightFlag := false

/-- The same environment with nothing scrapable from the wrapper page. -/
def c9ApiEnv : CareerEnv := { c9ScrapeEnv with extractListing := fun _ _ => [] }

/-- The `career_url` source entry used in the C9 scenarios. -/
def c9Src : CareerSrc := { url := str "u" }

/-! # Theorems -/

/-- **C1.** Dedupe-key derivation follows the three-level precedence of
`build_dedupe_key`: a non-blank `url` yields `"url:" ++ sha1` of the
whitespace-normalized, lowercased URL; otherwise a non-blank `job_id`
yields `"id:<source_type>:<company_name>:<job_id>"`; otherwise the key is
`"hash:" ++ sha1` of the normalized fallback tuple.  The key is a pure
function of those eight fields, and two jobs with the same non-blank URL —
in particular two jobs differing only in `description` — get the same key. -/
theorem dedupe_key_precedence (job job2 : JobDict) :
    (pyStrip job.url ≠ [] →
      build_dedupe_key job = str "url:" ++ sha1_text (norm job.url)) ∧
    (pyStrip job.url = [] → pyStrip job.job_id ≠ [] →
      build_dedupe_key job = str "id:" ++ job.source_type ++ str ":" ++
        job.company_name ++ str ":" ++ job.job_id) ∧
    (pyStrip job.url = [] → pyStrip job.job_id = [] →
      build_dedupe_key job = str "hash:" ++ sha1_text (norm
        (job.company_name ++ str "|" ++ job.title ++ str "|" ++ job.location ++
          str "|" ++ job.department ++ str "|" ++ job.team))) ∧
    (job.url = job2.url → job.job_id = job2.job_id →
      job.source_type = job2.source_type → job.company_name = job2.company_name →
      job.title = job2.title → job.location = job2.location →
      job.department = job2.department → job.team = job2.team →
      build_dedupe_key job = build_dedupe_key job2) ∧
    (job.url = job2.url → pyStrip job.url ≠ [] →
      build_dedupe_key job = build_dedupe_key job2) := by
  refine ⟨?_, ?_, ?_, ?_, ?_⟩
  · intro h; simp [build_dedupe_key, h]
  · intro h1 h2; simp [build_dedupe_key, h1, h2]
  · intro h1 h2; simp [build_dedupe_key, h1, h2]
  · intro h1 h2 h3 h4 h5 h6 h7 h8
    simp only [build_dedupe_key, h1, h2, h3, h4, h5, h6, h7, h8]
  · intro h1 h2
    simp [build_dedupe_key, h1, h1 ▸ h2]

/-- Witness for C1: two concrete jobs that differ only in `description`
but share a non-blank URL receive the same dedupe key. -/
theorem dedupe_key_precedence_witness :
    build_dedupe_key
      { url := str "https://example.com/jobs/1", description := str "first" } =
    build_dedupe_key
      { url := str "https://example.com/jobs/1", description := str "second" } :=
  (dedupe_key_precedence
    { url := str "https://example.com/jobs/1", description := str "first" }
    { url := str "https://example.com/jobs/1", description := str "second" }).2.2.2.2
    rfl (by decide)

/-! ### State-engine lemmas (`upsert_and_compute_new`) -/

lemma seenLookup_cons (x : SeenRow) (xs : List SeenRow) (k : List Char) :
    seenLookup (x :: xs) k =
      if x.dedupe_key = k then some x else seenLookup xs k := by
  unfold seenLookup
  rw [List.find?_cons]
  by_cases h : x.dedupe_key = k <;> simp [h]

lemma seenLookup_setLast (rows : List SeenRow) (k dk : List Char) (now : Nat) :
    seenLookup (seenSetLast rows dk now) k =
      (seenLookup rows k).map fun r =>
        if r.dedupe_key = dk then { r with last_seen := now } else r := by
  induction rows with
  | nil => simp [seenLookup, seenSetLast]
  | cons r rs ih =>
      have hkey : (if r.dedupe_key = dk then { r with last_seen := now } else r).dedupe_key
          = r.dedupe_key := by
        by_cases h2 : r.dedupe_key = dk <;> simp [h2]
      simp only [seenSetLast, List.map_cons] at *
      rw [seenLookup_cons, hkey, seenLookup_cons]
      by_cases h : r.dedupe_key = k
      · simp [h]
      · simp [h, ih]

lemma seenLookup_append_one (rows : List SeenRow) (r0 : SeenRow) (k : List Char) :
    seenLookup (rows ++ [r0]) k =
      match seenLookup rows k with
      | some r => some r
      | none => if r0.dedupe_key = k then some r0 else none := by
  induction rows with
  | nil =>
      rw [List.nil_append, seenLookup_cons]
      by_cases h : r0.dedupe_key = k <;> simp [h, seenLookup]
  | cons r rs ih =>
      rw [List.cons_append, seenLookup_cons, seenLookup_cons]
      by_cases h : r.dedupe_key = k <;> simp [h, ih]

lemma seenLookup_key (rows : List SeenRow) (k : List Char) (row : SeenRow)
    (h : seenLookup rows k = some row) : row.dedupe_key = k := by
  have := List.find?_some h
  simpa using this

/-- Effect of one loop iteration on a looked-up `jobs_seen` row: the
`first_seen` field survives, `last_seen` is either untouched or set to
`now`. -/
lemma upsertOne_seenLookup (ctx : Option (List Char × List Char)) (now : Nat)
    (db : Db) (job : JobDict) (k : List Char) (row : SeenRow)
    (hfind : seenLookup db.jobs_seen k = some row) :
    seenLookup (upsertOne ctx now db job).1.jobs_seen k = some row ∨
    seenLookup (upsertOne ctx now db job).1.jobs_seen k =
      some { row with last_seen := now } := by
  unfold upsertOne
  cases hdk : seenLookup db.jobs_seen (build_dedupe_key job) with
  | none =>
      left
      simp only [hdk, seenLookup_append_one, hfind]
  | some rowdk =>
      simp only [hdk, seenLookup_setLast, hfind, Option.map_some]
      by_cases h : row.dedupe_key = build_dedupe_key job
      · right; simp [h]
      · left; simp [h]

/-- Effect of one loop iteration on the clock invariant. -/
lemma upsertOne_clockInv (ctx : Option (List Char × List Char)) (now : Nat)
    (db : Db) (job : JobDict) (clock : Nat) (hle : clock ≤ now)
    (hinv : dbClockInv db clock) :
    dbClockInv (upsertOne ctx now db job).1 now := by
  unfold upsertOne
  cases hdk : seenLookup db.jobs_seen (build_dedupe_key job) with
  | none =>
      intro r hr
      simp only [hdk] at hr
      rcases List.mem_append.mp hr with hr' | hr'
      · have := hinv r hr'
        omega
      · simp at hr'
        subst hr'
        simp
  | some rowdk =>
      intro r hr
      simp only [hdk, seenSetLast] at hr
      rcases List.mem_map.mp hr with ⟨r0, hr0, heq⟩
      have h0 := hinv r0 hr0
      by_cases h : r0.dedupe_key = build_dedupe_key job
      · rw [if_pos h] at heq
        subst heq
        refine ⟨?_, ?_⟩
        · show r0.first_seen ≤ now
          omega
        · show now ≤ now
          exact le_refl now
      · rw [if_neg h] at heq
        subst heq
        exact ⟨h0.1, le_trans h0.2 hle⟩

/-- Both effects, extended over a whole `upsert_and_compute_new` call. -/
lemma upsert_call_seen (ctx : Option (List Char × List Char)) (now : Nat)
    (db : Db) (jobs : List JobDict) (clock : Nat) (hle : clock ≤ now)
    (hinv : dbClockInv db clock) :
    dbClockInv (upsert_and_compute_new ctx now db jobs).1 now ∧
    ∀ k row, seenLookup db.jobs_seen k = some row →
      ∃ row2, seenLookup (upsert_and_compute_new ctx now db jobs).1.jobs_seen k = some row2 ∧
        row2.first_seen = row.first_seen ∧ row.last_seen ≤ row2.last_seen := by
  induction jobs generalizing db clock with
  | nil =>
      refine ⟨fun r hr => ?_, fun k row h => ⟨row, by simpa [upsert_and_compute_new] using h, rfl, le_refl _⟩⟩
      have := hinv r (by simpa [upsert_and_compute_new] using hr)
      omega
  | cons j rest ih =>
      have hinv1 := upsertOne_clockInv ctx now db j clock hle hinv
      obtain ⟨hA, hB⟩ := ih (upsertOne ctx now db j).1 now (le_refl now) hinv1
      constructor
      · intro r hr
        apply hA
        simpa [upsert_and_compute_new] using hr
      · intro k row hfind
        rcases upsertOne_seenLookup ctx now db j k row hfind with h1 | h1
        · obtain ⟨row2, hl, hf, hlast⟩ := hB k row h1
          refine ⟨row2, ?_, hf, hlast⟩
          simpa [upsert_and_compute_new] using hl
        · obtain ⟨row2, hl, hf, hlast⟩ := hB k { row with last_seen := now } h1
          refine ⟨row2, ?_, hf, ?_⟩
          · simpa [upsert_and_compute_new] using hl
          · have hmem : row ∈ db.jobs_seen := List.mem_of_find?_eq_some hfind
            have := (hinv row hmem).2
            simp only at hlast
            omega

/-- **C5.** `first_seen` is immutable once a key is in `jobs_seen`: across
any sequence of `upsert_and_compute_new` calls under a non-decreasing
clock, a stored key keeps its `first_seen`, its `last_seen` never
decreases, and every stored row satisfies `first_seen ≤ last_seen`. -/
theorem first_seen_immutable (db : Db) (clock : Nat)
    (calls : List (Nat × Option (List Char × List Char) × List JobDict))
    (k : List Char) (row : SeenRow)
    (hinv : dbClockInv db clock)
    (hchain : List.Chain (· ≤ ·) clock (calls.map (·.1)))
    (hfind : seenLookup db.jobs_seen k = some row) :
    (∃ row2, seenLookup (replayCalls db calls).jobs_seen k = some row2 ∧
      row2.first_seen = row.first_seen ∧ row.last_seen ≤ row2.last_seen) ∧
    ∀ r ∈ (replayCalls db calls).jobs_seen, r.first_seen ≤ r.last_seen := by
  induction calls generalizing db clock row with
  | nil =>
      exact ⟨⟨row, hfind, rfl, le_refl _⟩, fun r hr => (hinv r hr).1⟩
  | cons c rest ih =>
      simp only [List.map_cons] at hchain
      cases hchain with
      | cons hle hch =>
          obtain ⟨hA, hB⟩ := upsert_call_seen c.2.1 c.1 db c.2.2 clock hle hinv
          obtain ⟨row1, hl1, hf1, hlast1⟩ := hB k row hfind
          obtain ⟨⟨row2, hl2, hf2, hlast2⟩, hall⟩ := ih _ c.1 row1 hA hch hl1
          refine ⟨⟨row2, ?_, ?_, le_trans hlast1 hlast2⟩, ?_⟩
          · simpa [replayCalls] using hl2
          · rw [hf2, hf1]
          · simpa [replayCalls] using hall

/-- Witness for C5: a concrete stored row (`first_seen = 1`,
`last_seen = 2`) survives two later runs with its `first_seen` intact and
its `last_seen` not decreased. -/
theorem first_seen_immutable_witness :
    (∃ row2,
      seenLookup (replayCalls
        { jobs_seen := [{ dedupe_key := str "k0", first_seen := 1, last_seen := 2 }],
          jobs_latest := [], run_jobs := [] }
        [(5, none, [{ url := str "https://a.example/j" }]), (9, none, [])]).jobs_seen
        (str "k0") = some row2 ∧
      row2.first_seen = 1 ∧ 2 ≤ row2.last_seen) ∧
    ∀ r ∈ (replayCalls
        { jobs_seen := [{ dedupe_key := str "k0", first_seen := 1, last_seen := 2 }],
          jobs_latest := [], run_jobs := [] }
        [(5, none, [{ url := str "https://a.example/j" }]), (9, none, [])]).jobs_seen,
      r.first_seen ≤ r.last_seen := by
  have h := first_seen_immutable
    { jobs_seen := [{ dedupe_key := str "k0", first_seen := 1, last_seen := 2 }],
      jobs_latest := [], run_jobs := [] } 2
    [(5, none, [{ url := str "https://a.example/j" }]), (9, none, [])]
    (str "k0") { dedupe_key := str "k0", first_seen := 1, last_seen := 2 }
    (by intro r hr; simp at hr; subst hr; decide)
    (by simp)
    (by rw [seenLookup_cons]; simp)
  exact h

/-- A list with pairwise-distinct keys filters to exactly the one row
whose key matches a present key. -/
lemma unique_filter_single {α κ : Type} [DecidableEq κ] (key : α → κ)
    (l : List α) (hU : (l.map key).Nodup) (kk : κ) (r0 : α)
    (hmem : r0 ∈ l) (hkey : key r0 = kk) :
    l.filter (fun r => key r = kk) = [r0] := by
  induction l with
  | nil => cases hmem
  | cons x xs ih =>
      rw [List.map_cons, List.nodup_cons] at hU
      rcases List.mem_cons.mp hmem with rfl | hmem'
      · have hnil : xs.filter (fun r => key r = kk) = [] := by
          rw [List.filter_eq_nil_iff]
          intro a ha hak
          exact hU.1 (hkey ▸ (by simpa using hak) ▸ List.mem_map_of_mem key ha)
        rw [List.filter_cons]
        simp [hkey, hnil]
      · have hx : ¬ key x = kk := by
          intro hc
          exact hU.1 (hc ▸ hkey ▸ List.mem_map_of_mem key hmem')
        rw [List.filter_cons]
        simp only [hx, decide_eq_true_eq, if_neg (by simpa using hx)]
        exact ih hU.2 hmem'

/-- With pairwise-distinct keys, at most one row matches any key. -/
lemma unique_filter_le_one {α κ : Type} [DecidableEq κ] (key : α → κ)
    (l : List α) (hU : (l.map key).Nodup) (kk : κ) :
    (l.filter fun r => key r = kk).length ≤ 1 := by
  cases hf : l.filter (fun r => key r = kk) with
  | nil => simp
  | cons x rest =>
      have hx : x ∈ l.filter (fun r => key r = kk) := by rw [hf]; exact List.mem_cons_self x rest
      have hmem := List.mem_of_mem_filter hx
      have hkey : key x = kk := by simpa using List.of_mem_filter hx
      rw [unique_filter_single key l hU kk x hmem hkey] at hf
      simp [← hf]

lemma latestUpsert_filter (rows : List LatestRow) (row : LatestRow) (k : List Char)
    (hU : latestKeysUnique rows) :
    (latestUpsert rows row).filter (fun r => r.dedupe_key = k) =
      if row.dedupe_key = k then [row]
      else rows.filter fun r => r.dedupe_key = k := by
  by_cases hany : rows.any fun r => r.dedupe_key = row.dedupe_key
  · obtain ⟨r0, hr0, hr0k⟩ := List.any_eq_true.mp hany
    have hr0k : r0.dedupe_key = row.dedupe_key := by simpa using hr0k
    have hstep : latestUpsert rows row =
        rows.map fun r => if r.dedupe_key = row.dedupe_key then row else r := by
      simp [latestUpsert, hany]
    rw [hstep, List.filter_map]
    by_cases h2 : row.dedupe_key = k
    · have hcong : ∀ r ∈ rows,
          (((fun r : LatestRow => decide (r.dedupe_key = k)) ∘
            fun r => if r.dedupe_key = row.dedupe_key then row else r) r) =
          decide (r.dedupe_key = row.dedupe_key) := by
        intro r _
        by_cases h : r.dedupe_key = row.dedupe_key
        · simp [h, h2]
        · have hrk : ¬ r.dedupe_key = k := fun hc => h (hc.trans h2.symm)
          simp [h, hrk]
      rw [List.filter_congr hcong,
        unique_filter_single LatestRow.dedupe_key rows hU row.dedupe_key r0 hr0 hr0k]
      simp [h2, hr0k]
    · have hcong : ∀ r ∈ rows,
          (((fun r : LatestRow => decide (r.dedupe_key = k)) ∘
            fun r => if r.dedupe_key = row.dedupe_key then row else r) r) =
          decide (r.dedupe_key = k) := by
        intro r _
        by_cases h : r.dedupe_key = row.dedupe_key
        · simp [h, h2]
        · simp [h]
      rw [List.filter_congr hcong, if_neg h2]
      apply List.map_congr_left ?_ |>.trans (List.map_id _)
      intro r hr
      have hk : r.dedupe_key = k := by simpa using List.of_mem_filter hr
      have hne : ¬ r.dedupe_key = row.dedupe_key := fun hc => h2 (hc ▸ hk)
      simp [hne]
  · have hall : ∀ x ∈ rows, x.dedupe_key ≠ row.dedupe_key := by
      intro x hx hc
      exact hany (List.any_eq_true.mpr ⟨x, hx, by simpa using hc⟩)
    have hstep : latestUpsert rows row = rows ++ [row] := by
      simp [latestUpsert, hany]
    rw [hstep, List.filter_append]
    by_cases h2 : row.dedupe_key = k
    · have hnil : rows.filter (fun r => r.dedupe_key = k) = [] := by
        rw [List.filter_eq_nil_iff]
        intro a ha hak
        have hak2 : a.dedupe_key = k := by simpa using hak
        exact hall a ha (hak2.trans h2.symm)
      simp [h2, hnil]
    · simp [h2]

lemma latestUpsert_unique (rows : List LatestRow) (row : LatestRow)
    (hU : latestKeysUnique rows) : latestKeysUnique (latestUpsert rows row) := by
  by_cases hany : rows.any fun r => r.dedupe_key = row.dedupe_key
  · have hkeys : (latestUpsert rows row).map LatestRow.dedupe_key =
        rows.map LatestRow.dedupe_key := by
      unfold latestUpsert
      rw [if_pos hany, List.map_map]
      apply List.map_congr_left
      intro r _
      by_cases h : r.dedupe_key = row.dedupe_key <;> simp [h]
    unfold latestKeysUnique
    rw [hkeys]
    exact hU
  · have hall : ∀ x ∈ rows, x.dedupe_key ≠ row.dedupe_key := by
      intro x hx hc
      exact hany (List.any_eq_true.mpr ⟨x, hx, by simpa using hc⟩)
    unfold latestKeysUnique latestUpsert
    rw [if_neg hany]
    simp only [List.map_append, List.map_cons, List.map_nil]
    rw [List.nodup_append]
    refine ⟨hU, List.nodup_singleton _, ?_⟩
    intro a ha hb
    simp only [List.mem_singleton] at hb
    obtain ⟨x, hx, hxa⟩ := List.mem_map.mp ha
    exact hall x hx (hxa.trans hb)

lemma runJobsUpsert_unique (rows : List RunJobRow) (row : RunJobRow)
    (hU : runJobsKeysUnique rows) : runJobsKeysUnique (runJobsUpsert rows row) := by
  by_cases hany : rows.any fun r => r.run_id = row.run_id ∧ r.dedupe_key = row.dedupe_key
  · have hkeys : (runJobsUpsert rows row).map (fun r => (r.run_id, r.dedupe_key)) =
        rows.map fun r => (r.run_id, r.dedupe_key) := by
      unfold runJobsUpsert
      rw [if_pos hany, List.map_map]
      apply List.map_congr_left
      intro r _
      by_cases h : r.run_id = row.run_id ∧ r.dedupe_key = row.dedupe_key <;> simp [h]
    unfold runJobsKeysUnique
    rw [hkeys]
    exact hU
  · have hall : ∀ x ∈ rows, ¬ (x.run_id = row.run_id ∧ x.dedupe_key = row.dedupe_key) := by
      intro x hx hc
      exact hany (List.any_eq_true.mpr ⟨x, hx, by simpa using hc⟩)
    unfold runJobsKeysUnique runJobsUpsert
    rw [if_neg hany]
    simp only [List.map_append, List.map_cons, List.map_nil]
    rw [List.nodup_append]
    refine ⟨hU, List.nodup_singleton _, ?_⟩
    intro a ha hb
    simp only [List.mem_singleton] at hb
    obtain ⟨x, hx, hxa⟩ := List.mem_map.mp ha
    rw [hb] at hxa
    exact hall x hx ⟨congrArg Prod.fst hxa, congrArg Prod.snd hxa⟩

/-- One loop iteration preserves the three key-uniqueness invariants,
keeps every `jobs_seen` key, adds the processed job's key, and rewrites
exactly the `jobs_latest` row of the processed key. -/
lemma upsertOne_tables (ctx : Option (List Char × List Char)) (now : Nat)
    (db : Db) (job : JobDict)
    (hseen : seenKeysUnique db.jobs_seen) (hlat : latestKeysUnique db.jobs_latest)
    (hrj : runJobsKeysUnique db.run_jobs) :
    seenKeysUnique (upsertOne ctx now db job).1.jobs_seen ∧
    latestKeysUnique (upsertOne ctx now db job).1.jobs_latest ∧
    runJobsKeysUnique (upsertOne ctx now db job).1.run_jobs ∧
    (∀ k, k ∈ db.jobs_seen.map SeenRow.dedupe_key →
      k ∈ (upsertOne ctx now db job).1.jobs_seen.map SeenRow.dedupe_key) ∧
    build_dedupe_key job ∈ (upsertOne ctx now db job).1.jobs_seen.map SeenRow.dedupe_key ∧
    ∀ k, (upsertOne ctx now db job).1.jobs_latest.filter (fun r => r.dedupe_key = k) =
      if build_dedupe_key job = k then [latestRowOf (build_dedupe_key job) job]
      else db.jobs_latest.filter fun r => r.dedupe_key = k := by
  have hrj' : runJobsKeysUnique (upsertOne ctx now db job).1.run_jobs := by
    unfold upsertOne
    cases hdk : seenLookup db.jobs_seen (build_dedupe_key job) <;>
      simp only [hdk] <;>
      cases ctx with
      | none => exact hrj
      | some c =>
          obtain ⟨c1, c2⟩ := c
          dsimp only
          by_cases hc : c1 ≠ [] ∧ c2 ≠ []
          · rw [if_pos hc]
            exact runJobsUpsert_unique _ _ hrj
          · rw [if_neg hc]
            exact hrj
  have hlat' : ∀ k, (upsertOne ctx now db job).1.jobs_latest.filter
      (fun r => r.dedupe_key = k) =
      if build_dedupe_key job = k then [latestRowOf (build_dedupe_key job) job]
      else db.jobs_latest.filter fun r => r.dedupe_key = k := by
    intro k
    have : (upsertOne ctx now db job).1.jobs_latest =
        latestUpsert db.jobs_latest (latestRowOf (build_dedupe_key job) job) := by
      unfold upsertOne
      cases hdk : seenLookup db.jobs_seen (build_dedupe_key job) <;> rfl
    rw [this, latestUpsert_filter _ _ _ hlat]
    rfl
  have hlatU : latestKeysUnique (upsertOne ctx now db job).1.jobs_latest := by
    have : (upsertOne ctx now db job).1.jobs_latest =
        latestUpsert db.jobs_latest (latestRowOf (build_dedupe_key job) job) := by
      unfold upsertOne
      cases hdk : seenLookup db.jobs_seen (build_dedupe_key job) <;> rfl
    rw [this]
    exact latestUpsert_unique _ _ hlat
  refine ⟨?_, hlatU, hrj', ?_, ?_, hlat'⟩
  · unfold upsertOne
    cases hdk : seenLookup db.jobs_seen (build_dedupe_key job) with
    | none =>
        simp only [hdk]
        have hnot : build_dedupe_key job ∉ db.jobs_seen.map SeenRow.dedupe_key := by
          intro hmem
          obtain ⟨r, hr, hrk⟩ := List.mem_map.mp hmem
          have := List.find?_eq_none.mp hdk r hr
          simp [hrk] at this
        unfold seenKeysUnique
        simp only [List.map_append, List.map_cons, List.map_nil]
        rw [List.nodup_append]
        refine ⟨hseen, List.nodup_singleton _, ?_⟩
        intro a ha hb
        simp only [List.mem_singleton] at hb
        exact hnot (hb ▸ ha)
    | some row =>
        simp only [hdk]
        have hkeys : (seenSetLast db.jobs_seen (build_dedupe_key job) now).map
            SeenRow.dedupe_key = db.jobs_seen.map SeenRow.dedupe_key := by
          simp only [seenSetLast, List.map_map]
          apply List.map_congr_left
          intro r _
          by_cases h : r.dedupe_key = build_dedupe_key job <;> simp [h]
        unfold seenKeysUnique
        simpa [hkeys] using hseen
  · intro k hk
    unfold upsertOne
    cases hdk : seenLookup db.jobs_seen (build_dedupe_key job) with
    | none =>
        simp only [hdk, List.map_append]
        exact List.mem_append_left _ hk
    | some row =>
        simp only [hdk]
        have hkeys : (seenSetLast db.jobs_seen (build_dedupe_key job) now).map
            SeenRow.dedupe_key = db.jobs_seen.map SeenRow.dedupe_key := by
          simp only [seenSetLast, List.map_map]
          apply List.map_congr_left
          intro r _
          by_cases h : r.dedupe_key = build_dedupe_key job <;> simp [h]
        simpa [hkeys] using hk
  · unfold upsertOne
    cases hdk : seenLookup db.jobs_seen (build_dedupe_key job) with
    | none => simp [hdk]
    | some row =>
        simp only [hdk]
        have hkeys : (seenSetLast db.jobs_seen (build_dedupe_key job) now).map
            SeenRow.dedupe_key = db.jobs_seen.map SeenRow.dedupe_key := by
          simp only [seenSetLast, List.map_map]
          apply List.map_congr_left
          intro r _
          by_cases h : r.dedupe_key = build_dedupe_key job <;> simp [h]
        have hrowmem : row ∈ db.jobs_seen := List.mem_of_find?_eq_some hdk
        have hrowkey := seenLookup_key _ _ _ hdk
        simp only [hkeys]
        exact hrowkey ▸ List.mem_map_of_mem SeenRow.dedupe_key hrowmem

/-- A full `upsert_and_compute_new` call: invariants are preserved, all
processed keys are present afterwards, and each key's `jobs_latest` row is
the one of the **last** job in the list with that key. -/
lemma upsert_call_tables (ctx : Option (List Char × List Char)) (now : Nat)
    (db : Db) (jobs : List JobDict)
    (hseen : seenKeysUnique db.jobs_seen) (hlat : latestKeysUnique db.jobs_latest)
    (hrj : runJobsKeysUnique db.run_jobs) :
    seenKeysUnique (upsert_and_compute_new ctx now db jobs).1.jobs_seen ∧
    latestKeysUnique (upsert_and_compute_new ctx now db jobs).1.jobs_latest ∧
    runJobsKeysUnique (upsert_and_compute_new ctx now db jobs).1.run_jobs ∧
    (∀ k, k ∈ db.jobs_seen.map SeenRow.dedupe_key →
      k ∈ (upsert_and_compute_new ctx now db jobs).1.jobs_seen.map SeenRow.dedupe_key) ∧
    (∀ j ∈ jobs, build_dedupe_key j ∈
      (upsert_and_compute_new ctx now db jobs).1.jobs_seen.map SeenRow.dedupe_key) ∧
    ∀ k, (upsert_and_compute_new ctx now db jobs).1.jobs_latest.filter
        (fun r => r.dedupe_key = k) =
      match jobs.reverse.find? (fun j => build_dedupe_key j = k) with
      | some jl => [latestRowOf k jl]
      | none => db.jobs_latest.filter fun r => r.dedupe_key = k := by
  induction jobs generalizing db with
  | nil =>
      refine ⟨hseen, hlat, hrj, fun k hk => hk, fun j hj => absurd hj (List.not_mem_nil j), ?_⟩
      intro k
      simp [upsert_and_compute_new]
  | cons j rest ih =>
      obtain ⟨u1, u2, u3, u4, u5, u6⟩ :=
        upsertOne_tables ctx now db j hseen hlat hrj
      obtain ⟨v1, v2, v3, v4, v5, v6⟩ := ih (upsertOne ctx now db j).1 u1 u2 u3
      have hstate : (upsert_and_compute_new ctx now db (j :: rest)).1 =
          (upsert_and_compute_new ctx now (upsertOne ctx now db j).1 rest).1 := by
        simp [upsert_and_compute_new]
      refine ⟨by rw [hstate]; exact v1, by rw [hstate]; exact v2, by rw [hstate]; exact v3,
        ?_, ?_, ?_⟩
      · intro k hk
        rw [hstate]
        exact v4 k (u4 k hk)
      · intro j2 hj2
        rw [hstate]
        rcases List.mem_cons.mp hj2 with rfl | hj2'
        · exact v4 _ u5
        · exact v5 j2 hj2'
      · intro k
        rw [hstate, v6 k]
        cases hfr : rest.reverse.find? (fun j2 => build_dedupe_key j2 = k) with
        | some jl =>
            rw [List.reverse_cons, List.find?_append, hfr]
            rfl
        | none =>
            rw [List.reverse_cons, List.find?_append, hfr, Option.none_or,
              List.find?_cons]
            by_cases hjk : build_dedupe_key j = k
            · have hd : decide (build_dedupe_key j = k) = true := by simpa using hjk
              rw [hd]
              dsimp only
              rw [u6 k, if_pos hjk, hjk]
            · have hd : decide (build_dedupe_key j = k) = false := by simpa using hjk
              rw [hd]
              dsimp only
              rw [List.find?_nil, u6 k, if_neg hjk]

/-- `seenKeysUnique` + presence means exactly one row for the key. -/
lemma seen_filter_len_one (rows : List SeenRow) (hU : seenKeysUnique rows)
    (k : List Char) (hk : k ∈ rows.map SeenRow.dedupe_key) :
    (rows.filter fun r => r.dedupe_key = k).length = 1 := by
  obtain ⟨r0, hr0, hr0k⟩ := List.mem_map.mp hk
  rw [unique_filter_single SeenRow.dedupe_key rows hU k r0 hr0 hr0k]
  rfl

/-- `runJobsKeysUnique` means at most one row per `(run_id, dedupe_key)`. -/
lemma runJobs_filter_le_one (rows : List RunJobRow) (hU : runJobsKeysUnique rows)
    (rid k : List Char) :
    (rows.filter fun r => r.run_id = rid ∧ r.dedupe_key = k).length ≤ 1 := by
  have h := unique_filter_le_one (κ := List Char × List Char)
    (fun r : RunJobRow => (r.run_id, r.dedupe_key)) rows hU (rid, k)
  have hcong : ∀ r ∈ rows, (decide ((r.run_id, r.dedupe_key) = (rid, k))) =
      decide (r.run_id = rid ∧ r.dedupe_key = k) := by
    intro r _
    simp [Prod.ext_iff]
  rw [List.filter_congr hcong] at h
  exact h

/-- **C6.** `upsert_and_compute_new` is idempotent on persisted state:
after any positive number of runs re-submitting the same job list, each
submitted dedupe key has exactly one `jobs_seen` row, exactly one
`jobs_latest` row — equal to the fields of the **last** submitted job with
that key (last-writer-wins) — and there is at most one `run_jobs` row per
`(run_id, dedupe_key)` pair; the key-uniqueness invariants of all three
tables are preserved. -/
theorem upsert_idempotent (db : Db) (jobs : List JobDict)
    (runs : List (Nat × Option (List Char × List Char)))
    (hne : runs ≠ [])
    (hseen : seenKeysUnique db.jobs_seen) (hlat : latestKeysUnique db.jobs_latest)
    (hrj : runJobsKeysUnique db.run_jobs) :
    seenKeysUnique (replayRuns jobs db runs).jobs_seen ∧
    latestKeysUnique (replayRuns jobs db runs).jobs_latest ∧
    runJobsKeysUnique (replayRuns jobs db runs).run_jobs ∧
    (∀ j ∈ jobs,
      ((replayRuns jobs db runs).jobs_seen.filter
        (fun r => r.dedupe_key = build_dedupe_key j)).length = 1 ∧
      ∃ jlast, jobs.reverse.find? (fun j2 => build_dedupe_key j2 = build_dedupe_key j)
          = some jlast ∧
        (replayRuns jobs db runs).jobs_latest.filter
          (fun r => r.dedupe_key = build_dedupe_key j) =
          [latestRowOf (build_dedupe_key j) jlast]) ∧
    ∀ rid k, ((replayRuns jobs db runs).run_jobs.filter
      (fun r => r.run_id = rid ∧ r.dedupe_key = k)).length ≤ 1 := by
  induction runs generalizing db with
  | nil => exact absurd rfl hne
  | cons c rest ih =>
      by_cases hrest : rest = []
      · subst hrest
        have hrep : replayRuns jobs db [c] = (upsert_and_compute_new c.2 c.1 db jobs).1 := by
          simp [replayRuns]
        obtain ⟨u1, u2, u3, u4, u5, u6⟩ := upsert_call_tables c.2 c.1 db jobs hseen hlat hrj
        rw [hrep]
        refine ⟨u1, u2, u3, ?_, fun rid k => runJobs_filter_le_one _ u3 rid k⟩
        intro j hj
        refine ⟨seen_filter_len_one _ u1 _ (u5 j hj), ?_⟩
        have hfind : (jobs.reverse.find?
            (fun j2 => build_dedupe_key j2 = build_dedupe_key j)).isSome := by
          rw [List.find?_isSome]
          exact ⟨j, List.mem_reverse.mpr hj, by simp⟩
        obtain ⟨jlast, hjlast⟩ := Option.isSome_iff_exists.mp hfind
        refine ⟨jlast, hjlast, ?_⟩
        rw [u6 (build_dedupe_key j), hjlast]
      · have hrep : replayRuns jobs db (c :: rest) =
            replayRuns jobs (upsert_and_compute_new c.2 c.1 db jobs).1 rest := by
          simp [replayRuns]
        obtain ⟨u1, u2, u3, u4, u5, u6⟩ := upsert_call_tables c.2 c.1 db jobs hseen hlat hrj
        rw [hrep]
        exact ih _ hrest u1 u2 u3

/-- Witness for C6: two submissions of a two-job list (both jobs sharing
one URL) leave exactly one `jobs_seen` row for the shared key, and the
`jobs_latest` row carries the second job's fields. -/
theorem upsert_idempotent_witness :
    ((replayRuns
        [{ url := str "https://x.co/1", title := str "A" },
         { url := str "https://x.co/1", title := str "B" }]
        { jobs_seen := [], jobs_latest := [], run_jobs := [] }
        [(3, some (str "r1", str "h")), (7, some (str "r1", str "h"))]).jobs_seen.filter
      (fun r => r.dedupe_key =
        build_dedupe_key { url := str "https://x.co/1", title := str "A" })).length = 1 ∧
    ∃ jlast,
      ([({ url := str "https://x.co/1", title := str "A" } : JobDict),
        { url := str "https://x.co/1", title := str "B" }].reverse.find?
        (fun j2 => build_dedupe_key j2 =
          build_dedupe_key { url := str "https://x.co/1", title := str "A" }))
          = some jlast ∧
      (replayRuns
        [{ url := str "https://x.co/1", title := str "A" },
         { url := str "https://x.co/1", title := str "B" }]
        { jobs_seen := [], jobs_latest := [], run_jobs := [] }
        [(3, some (str "r1", str "h")), (7, some (str "r1", str "h"))]).jobs_latest.filter
        (fun r => r.dedupe_key =
          build_dedupe_key { url := str "https://x.co/1", title := str "A" }) =
        [latestRowOf
          (build_dedupe_key { url := str "https://x.co/1", title := str "A" }) jlast] :=
  (upsert_idempotent
    { jobs_seen := [], jobs_latest := [], run_jobs := [] }
    [{ url := str "https://x.co/1", title := str "A" },
     { url := str "https://x.co/1", title := str "B" }]
    [(3, some (str "r1", str "h")), (7, some (str "r1", str "h"))]
    (by simp)
    (by simp [seenKeysUnique])
    (by simp [latestKeysUnique])
    (by simp [runJobsKeysUnique])).2.2.2.1
    { url := str "https://x.co/1", title := str "A" }
    (by simp)

/-! ### The run orchestrator -/

/-- **C2** (code evaluation at the failing point).  `fetch_jobs_via_legacy`
returns a 4-tuple, while `run_once` unpacks five names from it
(`runner.py` line 128), so *every* invocation of `run_once` raises
`ValueError` before the `runs` row is inserted — regardless of sources,
per-source failures, or settings. -/
theorem run_once_unpack_always_fails
    (agentFetch : SourceCfg → Except (List Char) (List JobDict))
    (filterKeep : JobDict → Bool) (h1bLoadErrors : List (List Char))
    (discovered : List (List Char × List Char × List Char × List Char × List Char))
    (sources : List SourceCfg) :
    run_once agentFetch filterKeep h1bLoadErrors discovered sources =
      .error (str "ValueError: not enough values to unpack (expected 5, got 4)") :=
  rfl

/-- Witness for C2: the error fires on a concrete configuration — one
company whose single greenhouse source raises on fetch. -/
theorem run_once_unpack_always_fails_witness :
    run_once (fun _ => .error (str "boom")) (fun _ => true) [] []
      [{ type := str "greenhouse", company_slug := str "acme", label := str "Acme" }] =
      .error (str "ValueError: not enough values to unpack (expected 5, got 4)") :=
  run_once_unpack_always_fails (fun _ => .error (str "boom")) (fun _ => true) [] []
    [{ type := str "greenhouse", company_slug := str "acme", label := str "Acme" }]

/-- Evaluation of the ML rescue step once the probability is known. -/
lemma mlRescueStep_eval_some (mlMode : List Char) (threshold : ℚ)
    (probs : List Char → Option ℚ) (row : AuditRow) (p : ℚ)
    (hp : probs row.dedupe_key = some p) :
    mlRescueStep mlMode threshold probs row =
      if mlMode = str "rescue" ∧ row.included = 0 then
        if ¬ hasHardGate (row.reasons ++ [str "ml:prob:" ++ fmtProb3 p]) ∧
            threshold ≤ p then
          { row with included := 1,
                     reasons := (row.reasons ++ [str "ml:prob:" ++ fmtProb3 p]) ++
                       [str "ml:rescued"] }
        else { row with reasons := row.reasons ++ [str "ml:prob:" ++ fmtProb3 p] }
      else { row with reasons := row.reasons ++ [str "ml:prob:" ++ fmtProb3 p] } := by
  unfold mlRescueStep
  rw [hp]

/-- **C3, counterexample.** An `exclude` override does *not* guarantee a
final `included = 0`: with ML rescue enabled (`mode = "rescue"`, the model
loaded), a force-excluded job with no hard-gate reason and probability
`0.95 ≥ 0.92` is flipped back to `included = 1` by the ML block that runs
*after* the override loop.  The claim's "regardless of any later pipeline
stage such as the ML rescue gate" is false on the code. -/
theorem override_exclude_rescued_counterexample :
    runnerDecisions
      (fun k => if k = str "k" then some (str "exclude") else none)
      true true [] (str "rescue") (92/100 : ℚ)
      (fun k => if k = str "k" then some (95/100 : ℚ) else none)
      [{ dedupe_key := str "k", included := 1, reasons := [] }] =
    [{ dedupe_key := str "k", included := 1,
       reasons := [str "override:force_exclude",
                   str "ml:prob:" ++ fmtProb3 (95/100 : ℚ),
                   str "ml:rescued"] }] := by
  have hle : (92/100 : ℚ) ≤ 95/100 := by norm_num
  have h1 : applyOverridesPhase
      (fun k => if k = str "k" then some (str "exclude") else none)
      [{ dedupe_key := str "k", included := 1, reasons := [] }] =
      [{ dedupe_key := str "k", included := 0,
         reasons := [str "override:force_exclude"] }] := by
    decide
  unfold runnerDecisions
  rw [h1]
  unfold mlPhase
  simp only [not_true, if_false, if_neg, List.map_cons, List.map_nil]
  rw [mlRescueStep_eval_some _ _ _ _ (95/100 : ℚ) rfl]
  rw [if_pos ⟨rfl, rfl⟩, if_pos ⟨by decide, hle⟩]
  rfl

/-- **C3, amended.** Manual overrides dominate the *filter* verdict: an
`include` override always ends with `included = 1` (the ML rescue gate can
only flip `0 → 1`, so it never undoes it) and
`"override:force_include"` appended; an `exclude` override ends with
`"override:force_exclude"` appended and `included = 0` **unless** the ML
rescue gate — running after the overrides — flips it back to `1`, which
it marks by appending `"ml:rescued"` (possible only when ML is enabled and
loaded, in rescue mode, with no hard-gate reason and probability at or
above the threshold). -/
theorem override_dominates_filter (overrides : List Char → Option (List Char))
    (mlEnabled mlAvailable : Bool) (unavailReason mlMode : List Char)
    (threshold : ℚ) (probs : List Char → Option ℚ) (row : AuditRow) :
    (overrides row.dedupe_key = some (str "include") →
      (rowDecision overrides mlEnabled mlAvailable unavailReason mlMode threshold
        probs row).included = 1 ∧
      str "override:force_include" ∈
        (rowDecision overrides mlEnabled mlAvailable unavailReason mlMode threshold
          probs row).reasons) ∧
    (overrides row.dedupe_key = some (str "exclude") →
      str "override:force_exclude" ∈
        (rowDecision overrides mlEnabled mlAvailable unavailReason mlMode threshold
          probs row).reasons ∧
      ((rowDecision overrides mlEnabled mlAvailable unavailReason mlMode threshold
          probs row).included = 0 ∨
        ((rowDecision overrides mlEnabled mlAvailable unavailReason mlMode threshold
          probs row).included = 1 ∧
         str "ml:rescued" ∈
          (rowDecision overrides mlEnabled mlAvailable unavailReason mlMode threshold
            probs row).reasons ∧
         mlEnabled = true ∧ mlAvailable = true ∧ mlMode = str "rescue" ∧
         ∃ p, probs row.dedupe_key = some p ∧ threshold ≤ p))) := by
  constructor
  · intro h
    obtain ⟨hinc, hkey, hreas⟩ : (applyOverride overrides row).included = 1 ∧
        (applyOverride overrides row).dedupe_key = row.dedupe_key ∧
        (applyOverride overrides row).reasons =
          row.reasons ++ [str "override:force_include"] := by
      simp [applyOverride, h, str]
    unfold rowDecision
    by_cases hml : mlEnabled = true
    · by_cases hav : mlAvailable = true
      · rw [if_pos hml, if_pos hav]
        cases hp : probs (applyOverride overrides row).dedupe_key with
        | none =>
            unfold mlRescueStep
            rw [hp]
            exact ⟨hinc, by rw [hreas]; simp⟩
        | some p =>
            rw [mlRescueStep_eval_some _ _ _ _ p hp]
            rw [if_neg (by rintro ⟨-, h0⟩; rw [hinc] at h0; cases h0)]
            exact ⟨hinc, by rw [hreas]; simp⟩
      · rw [if_pos hml, if_neg hav]
        exact ⟨hinc, by rw [hreas]; simp⟩
    · rw [if_neg hml]
      exact ⟨hinc, by rw [hreas]; simp⟩
  · intro h
    obtain ⟨hinc, hkey, hreas⟩ : (applyOverride overrides row).included = 0 ∧
        (applyOverride overrides row).dedupe_key = row.dedupe_key ∧
        (applyOverride overrides row).reasons =
          row.reasons ++ [str "override:force_exclude"] := by
      simp [applyOverride, h, str]
    unfold rowDecision
    by_cases hml : mlEnabled = true
    · by_cases hav : mlAvailable = true
      · rw [if_pos hml, if_pos hav]
        cases hp : probs (applyOverride overrides row).dedupe_key with
        | none =>
            unfold mlRescueStep
            rw [hp]
            exact ⟨by rw [hreas]; simp, Or.inl hinc⟩
        | some p =>
            rw [mlRescueStep_eval_some _ _ _ _ p hp]
            by_cases hmode : mlMode = str "rescue"
            · rw [if_pos ⟨hmode, hinc⟩]
              by_cases hres : ¬ hasHardGate ((applyOverride overrides row).reasons ++
                  [str "ml:prob:" ++ fmtProb3 p]) ∧ threshold ≤ p
              · rw [if_pos hres]
                rw [hkey] at hp
                have hex : ∃ q, probs row.dedupe_key = some q ∧ threshold ≤ q :=
                  ⟨p, hp, hres.2⟩
                exact ⟨by rw [hreas]; simp, Or.inr ⟨rfl, by simp, hml, hav, hmode, hex⟩⟩
              · rw [if_neg hres]
                exact ⟨by rw [hreas]; simp, Or.inl hinc⟩
            · rw [if_neg (by rintro ⟨hm, -⟩; exact hmode hm)]
              exact ⟨by rw [hreas]; simp, Or.inl hinc⟩
      · rw [if_pos hml, if_neg hav]
        exact ⟨by rw [hreas]; simp, Or.inl hinc⟩
    · rw [if_neg hml]
      exact ⟨by rw [hreas]; simp, Or.inl hinc⟩

/-- Witness for C3 (amended): a concrete force-included job stays included
through an enabled rescue gate. -/
theorem override_dominates_filter_witness :
    (rowDecision (fun _ => some (str "include")) true true [] (str "rescue")
      (92/100 : ℚ) (fun _ => some (1/10 : ℚ))
      { dedupe_key := str "k", included := 0, reasons := [] }).included = 1 :=
  ((override_dominates_filter (fun _ => some (str "include")) true true []
    (str "rescue") (92/100 : ℚ) (fun _ => some (1/10 : ℚ))
    { dedupe_key := str "k", included := 0, reasons := [] }).1 rfl).1

/-- **C4.** The ML rescue step only ever flips `drop → keep`; it never
flips a row whose trail has a reason starting with `location:`,
`work_mode:`, `remote_us:` or `state:`, regardless of the probability; it
flips only when the probability is at least the threshold; and every flip
appends `"ml:rescued"`. -/
theorem ml_rescue_gate_properties (mlMode : List Char) (threshold : ℚ)
    (probs : List Char → Option ℚ) (row : AuditRow) :
    ((row.included = 1 →
      (mlRescueStep mlMode threshold probs row).included = 1) ∧
    ((mlRescueStep mlMode threshold probs row).included ≠ row.included →
      row.included = 0 ∧ (mlRescueStep mlMode threshold probs row).included = 1)) ∧
    ((∃ r ∈ row.reasons, ∃ mark ∈ [str "location:", str "work_mode:",
        str "remote_us:", str "state:"], mark.isPrefixOf r) →
      (mlRescueStep mlMode threshold probs row).included = row.included) ∧
    ((mlRescueStep mlMode threshold probs row).included ≠ row.included →
      ∃ p, probs row.dedupe_key = some p ∧ threshold ≤ p) ∧
    ((mlRescueStep mlMode threshold probs row).included ≠ row.included →
      str "ml:rescued" ∈ (mlRescueStep mlMode threshold probs row).reasons) := by
  cases hp : probs row.dedupe_key with
  | none =>
      have heval : mlRescueStep mlMode threshold probs row = row := by
        unfold mlRescueStep
        rw [hp]
      rw [heval]
      exact ⟨⟨fun h => h, fun h => absurd rfl h⟩, fun _ => rfl,
        fun h => absurd rfl h, fun h => absurd rfl h⟩
  | some p =>
      rw [mlRescueStep_eval_some _ _ _ _ p hp]
      by_cases hmode : mlMode = str "rescue" ∧ row.included = 0
      · rw [if_pos hmode]
        by_cases hres : ¬ hasHardGate (row.reasons ++
            [str "ml:prob:" ++ fmtProb3 p]) ∧ threshold ≤ p
        · rw [if_pos hres]
          refine ⟨⟨fun _ => rfl, fun _ => ⟨hmode.2, rfl⟩⟩, ?_, fun _ => ⟨p, rfl, hres.2⟩,
            fun _ => by simp⟩
          intro hhard
          exfalso
          apply hres.1
          obtain ⟨r, hr, mark, hmark, hpre⟩ := hhard
          refine List.any_eq_true.mpr ⟨r, List.mem_append_left _ hr,
            List.any_eq_true.mpr ⟨mark, ?_, by simpa using hpre⟩⟩
          simp only [List.mem_cons, List.not_mem_nil, or_false] at hmark
          simp only [hardGatePrefixes, List.mem_cons]
          rcases hmark with h | h | h | h
          · exact Or.inl h
          · exact Or.inr (Or.inl h)
          · exact Or.inr (Or.inr (Or.inl h))
          · exact Or.inr (Or.inr (Or.inr (Or.inl h)))
        · rw [if_neg hres]
          exact ⟨⟨fun h => h, fun h => absurd rfl h⟩, fun _ => rfl,
            fun h => absurd rfl h, fun h => absurd rfl h⟩
      · rw [if_neg hmode]
        exact ⟨⟨fun h => h, fun h => absurd rfl h⟩, fun _ => rfl,
          fun h => absurd rfl h, fun h => absurd rfl h⟩

/-- Witness for C4: a dropped row carrying the hard-gate reason
`location:not_us` is not flipped even at probability `0.99 ≥ 0.92`. -/
theorem ml_rescue_gate_properties_witness :
    (mlRescueStep (str "rescue") (92/100 : ℚ)
      (fun _ => some (99/100 : ℚ))
      { dedupe_key := str "k", included := 0,
        reasons := [str "location:not_us"] }).included = 0 :=
  (ml_rescue_gate_properties (str "rescue") (92/100 : ℚ)
    (fun _ => some (99/100 : ℚ))
    { dedupe_key := str "k", included := 0,
      reasons := [str "location:not_us"] }).2.1
    ⟨str "location:not_us", by simp, str "location:", by simp, by decide⟩

/-! ### Filter engine -/

/-- **C7.** For a job that passes the US-location gate, whose combined
`title\ndescription\nlocation` haystack contains `"no visa sponsorship"`
(case-insensitively), with the default visa-restriction list in effect
(`visa_restriction_phrases = None`) and no configured exclude keyword
(all of which are listed earlier) matching, `FilterAgent.explain` returns
`keep = false` with reasons exactly
`["exclude:matched:no visa sponsorship"]` — the exclude gate
short-circuits before the role-keyword and include-keyword gates. -/
theorem exclude_gate_short_circuits (config : LegacyConfig) (job : NormalizedJob)
    (hvisa : config.visa_restriction_phrases = none)
    (hus : is_us_location job.location = true)
    (hsub : hasSub (str "no visa sponsorship")
      (pyLower (job.title ++ str "\n" ++ job.description ++ str "\n" ++ job.location))
      = true)
    (hbase : firstMatch (job.title ++ str "\n" ++ job.description ++ str "\n" ++ job.location)
      config.exclude_keywords = none) :
    (FilterAgent.init config).explain job =
      (false, [str "exclude:matched:no visa sponsorship"]) := by
  have hexk : (FilterAgent.init config).exclude_keywords =
      config.exclude_keywords ++ DEFAULT_VISA_RESTRICTION_PHRASES := by
    simp [FilterAgent.init, hvisa]
  have hfm : firstMatch
      (job.title ++ str "\n" ++ job.description ++ str "\n" ++ job.location)
      (FilterAgent.init config).exclude_keywords =
      some (str "no visa sponsorship") := by
    rw [hexk]
    unfold firstMatch at hbase ⊢
    rw [List.find?_append, hbase, Option.none_or]
    have hdef : DEFAULT_VISA_RESTRICTION_PHRASES =
        str "no visa sponsorship" :: DEFAULT_VISA_RESTRICTION_PHRASES.tail := rfl
    rw [hdef, List.find?_cons]
    have hp0 : (decide (pyLower (pyStrip (str "no visa sponsorship")) ≠ []) &&
        hasSub (pyLower (pyStrip (str "no visa sponsorship")))
          (pyLower (job.title ++ str "\n" ++ job.description ++ str "\n" ++ job.location)))
        = true := by
      have hred : pyLower (pyStrip (str "no visa sponsorship")) =
          str "no visa sponsorship" := rfl
      rw [hred, hsub]
      decide
    rw [hp0]
  have hne : (FilterAgent.init config).exclude_keywords ≠ [] := by
    rw [hexk]
    intro hc
    exact absurd (List.append_eq_nil.mp hc).2 (by decide)
  unfold FilterAgent.explain
  rw [if_neg (by simp [hus])]
  dsimp only
  rw [if_pos hne, hfm]
  rfl

/-- Witness for C7: a concrete job in Austin, TX whose description says
"No Visa Sponsorship available", under the default settings. -/
theorem exclude_gate_short_circuits_witness :
    (FilterAgent.init {}).explain
      { title := str "Engineer",
        description := str "Great role. No Visa Sponsorship available.",
        location := str "Austin, TX" } =
      (false, [str "exclude:matched:no visa sponsorship"]) :=
  exclude_gate_short_circuits {}
    { title := str "Engineer",
      description := str "Great role. No Visa Sponsorship available.",
      location := str "Austin, TX" }
    rfl (by decide) (by decide) rfl

/-- **C10, counterexample.** The claim's conditions (no role keywords, no
include keywords, work-mode preference `any`, identifiable non-remote US
location, no preferred states) do **not** suffice for `(True, [])`: the
default visa-restriction phrases are still in effect as exclude keywords,
so a job whose description contains `"security clearance"` is rejected
under exactly those conditions. -/
theorem empty_trail_counterexample :
    (FilterAgent.init {}).role_keywords = [] ∧
    (FilterAgent.init {}).include_keywords = [] ∧
    (FilterAgent.init {}).preferred_states = [] ∧
    (FilterAgent.init {}).work_mode_preference = str "any" ∧
    is_us_location (str "Austin, TX") = true ∧
    is_remote_us (str "Austin, TX") = false ∧
    (FilterAgent.init {}).explain
      { title := str "Engineer",
        description := str "Requires security clearance",
        location := str "Austin, TX" } =
      (false, [str "exclude:matched:security clearance"]) := by
  decide

lemma explain_false_trail_nonempty (fa : FilterAgent) (job2 : NormalizedJob) :
    (fa.explain job2).1 = false → (fa.explain job2).2 ≠ [] := by
  unfold FilterAgent.explain
  dsimp only
  repeat' split
  all_goals intro h
  all_goals try simp_all
  all_goals rename_i heq
  all_goals repeat' split at heq
  all_goals simp_all [Prod.ext_iff]
  all_goals obtain ⟨h1, h2⟩ := heq
  all_goals rw [← h1]
  all_goals simp

/-- **C10, amended.** `(True, [])` is reachable: under the claim's
conditions **and** no exclude keyword (configured or default
visa-restriction phrase) occurring in the job's text,
`FilterAgent.explain` returns `keep = true` with an empty reason trail —
so an accepted job's audit trail can be empty, while a rejection always
carries at least one reason. -/
theorem accepted_job_trail_can_be_empty (config : LegacyConfig) (job : NormalizedJob)
    (hrole : config.role_keywords = [])
    (hinc : config.include_keywords = [])
    (hwm : (FilterAgent.init config).work_mode_preference = str "any")
    (hstates : config.preferred_states = [])
    (hus : is_us_location job.location = true)
    (hrem : is_remote_us job.location = false)
    (hexc : firstMatch (job.title ++ str "\n" ++ job.description ++ str "\n" ++ job.location)
      (FilterAgent.init config).exclude_keywords = none) :
    ((FilterAgent.init config).explain job = (true, []) ∧
    ∀ (fa : FilterAgent) (job2 : NormalizedJob),
      (fa.explain job2).1 = false → (fa.explain job2).2 ≠ []) := by
  constructor
  · have hrole2 : (FilterAgent.init config).role_keywords = [] := by
      simp [FilterAgent.init, hrole]
    have hinc2 : (FilterAgent.init config).include_keywords = [] := by
      simp [FilterAgent.init, hinc]
    have hstates2 : (FilterAgent.init config).preferred_states = [] := by
      simp [FilterAgent.init, hstates]
    unfold FilterAgent.explain
    rw [if_neg (by simp [hus])]
    dsimp only
    by_cases hek : (FilterAgent.init config).exclude_keywords ≠ []
    · rw [if_pos hek, hexc]
      simp [hrole2, hinc2, hstates2, hwm, hrem]
    · rw [if_neg hek]
      simp [hrole2, hinc2, hstates2, hwm, hrem]
  · exact explain_false_trail_nonempty

/-- Witness for C10 (amended): under default settings, a plain software
engineering job in San Francisco is kept with an empty reason trail. -/
theorem accepted_job_trail_can_be_empty_witness :
    ((FilterAgent.init {}).explain
      { title := str "Software Engineer", location := str "San Francisco, CA" } =
      (true, []) ∧
    ∀ (fa : FilterAgent) (job2 : NormalizedJob),
      (fa.explain job2).1 = false → (fa.explain job2).2 ≠ []) :=
  accepted_job_trail_can_be_empty {}
    { title := str "Software Engineer", location := str "San Francisco, CA" }
    rfl rfl rfl rfl (by decide) (by decide) (by decide)

/-! ### Pagination loop -/

/-- Invariants of the crawl loop, by functional induction: the page list
never exceeds the cap, and the successfully fetched URLs of the trace are
fresh (not in `seen`) and pairwise distinct. -/
lemma iterPagesLoop_invariants (env : PagEnv) (mp : Nat) (base : List Char)
    (q seen : List (List Char)) (out : List (List Char × List Char)) (a t : Nat) :
    (out.length ≤ mp → (iterPagesLoop env mp base q seen out a t).1.length ≤ mp) ∧
    (∀ u, (u, true) ∈ (iterPagesLoop env mp base q seen out a t).2 → u ∉ seen) ∧
    ((((iterPagesLoop env mp base q seen out a t).2.filter fun e => e.2).map
      fun e => e.1).Nodup) := by
  induction q, seen, out, a, t using iterPagesLoop.induct env mp base
  case case7 =>
    rename_i u qrest seen out attempt tick hcap htime hune hnet hnseen hfetch
      pages trace heq ih
    rw [iterPagesLoop.eq_def]
    dsimp only
    rw [if_neg hcap, if_neg htime, if_neg hune, if_neg hnet, if_neg hnseen, hfetch]
    dsimp only
    rw [heq] at ih
    rw [heq]
    dsimp only
    refine ⟨ih.1, ?_, ?_⟩
    · intro v hv
      rcases List.mem_cons.mp hv with hv | hv
      · exact absurd (congrArg Prod.snd hv) (by simp)
      · exact ih.2.1 v hv
    · simp only [List.filter_cons]
      rw [if_neg (by simp)]
      exact ih.2.2
  case case8 =>
    rename_i u qrest seen out attempt tick hcap htime hune hnet hnseen finalUrl
      pages trace heq hfetch ih
    rw [iterPagesLoop.eq_def]
    dsimp only
    rw [if_neg hcap, if_neg htime, if_neg hune, if_neg hnet, if_neg hnseen, hfetch]
    dsimp only
    rw [heq]
    rw [heq] at ih
    rw [if_pos (rfl : ([] : List Char) = [])]
    dsimp only
    refine ⟨ih.1, ?_, ?_⟩
    · intro v hv
      rcases List.mem_cons.mp hv with hv | hv
      · obtain rfl : v = u := congrArg Prod.fst hv
        exact hnseen
      · exact fun hvs => ih.2.1 v hv (List.mem_append_left _ hvs)
    · simp only [List.filter_cons]
      rw [if_pos trivial, List.map_cons]
      refine List.nodup_cons.mpr ⟨?_, ih.2.2⟩
      intro hmem
      obtain ⟨e, he, he1⟩ := List.mem_map.mp hmem
      obtain ⟨e1, e2⟩ := e
      have hb : e2 = true := by simpa using List.of_mem_filter he
      subst hb
      have h3 : e1 ∉ seen ++ [u] := ih.2.1 e1 (List.mem_of_mem_filter he)
      have h4 : e1 = u := he1
      exact h3 (by rw [h4]; exact List.mem_append_right _ (by simp))
  case case9 =>
    rename_i u qrest seen out attempt tick hcap htime hune hnet hnseen html finalUrl
      hfetch hhtml out1 hstop
    rw [iterPagesLoop.eq_def]
    dsimp only
    rw [if_neg hcap, if_neg htime, if_neg hune, if_neg hnet, if_neg hnseen, hfetch]
    dsimp only
    rw [if_neg hhtml, if_pos hstop]
    refine ⟨?_, ?_, by simp⟩
    · intro hle
      have h1 : ¬ mp ≤ out.length := hcap
      simp only [List.length_append, List.length_cons, List.length_nil]
      omega
    · intro v hv
      simp only [List.mem_singleton] at hv
      obtain rfl : v = u := congrArg Prod.fst hv
      exact hnseen
  case case10 =>
    rename_i u qrest seen out attempt tick hcap htime hune hnet hnseen html finalUrl
      hfetch hhtml seen1 out1 hcont nls mpn np hdisc c1 c2 c3 pages trace heq ih
    rw [iterPagesLoop.eq_def]
    dsimp only
    rw [if_neg hcap, if_neg htime, if_neg hune, if_neg hnet, if_neg hnseen, hfetch]
    dsimp only
    rw [if_neg hhtml, if_neg hcont]
    simp only [hdisc]
    unfold seen1 out1 c1 c2 c3 at heq ih
    rw [heq] at ih
    simp only [dite_eq_ite] at heq
    rw [heq]
    dsimp only
    have hout1 : ¬ mp ≤ (out ++ [(html, finalUrl)]).length := (not_or.mp hcont).1
    refine ⟨fun _ => ih.1 (by omega), ?_, ?_⟩
    · intro v hv
      rcases List.mem_cons.mp hv with hv | hv
      · obtain rfl : v = u := congrArg Prod.fst hv
        exact hnseen
      · exact fun hvs => ih.2.1 v hv (List.mem_append_left _ hvs)
    · simp only [List.filter_cons]
      rw [if_pos trivial, List.map_cons]
      refine List.nodup_cons.mpr ⟨?_, ih.2.2⟩
      intro hmem
      obtain ⟨e, he, he1⟩ := List.mem_map.mp hmem
      obtain ⟨e1, e2⟩ := e
      have hb : e2 = true := by simpa using List.of_mem_filter he
      subst hb
      have h3 : e1 ∉ seen ++ [u, finalUrl] := ih.2.1 e1 (List.mem_of_mem_filter he)
      have h4 : e1 = u := he1
      exact h3 (by rw [h4]; exact List.mem_append_right _ (by simp))
  all_goals try simp_all [iterPagesLoop]
  all_goals simp only [if_neg (Nat.not_le.mpr (by assumption))]
  all_goals try assumption

/-- **C8 (amended).** `_iterate_list_pages` always terminates (it is a
total function of its oracle environment, proved by the decreasing measure
`(max_pages - len(out), len(q))`), returns at most `max(1, max_pages)`
`(html, url)` pairs — the cap is `max_pages` clamped up to `1`, so for
`max_pages = 0` one page may still be returned — and on every page graph,
including self-links and cycles, no URL is *successfully* fetched more than
once: the successfully fetched URLs of the fetch trace are pairwise
distinct, because a successful fetch adds the URL to the `seen` set.  A URL
whose fetch raises is *not* added to `seen`, so "no URL is fetched more
than once" does not hold for raising fetches (see the counterexample). -/
theorem iterate_list_pages_terminates_within_cap (env : PagEnv)
    (url : List Char) (maxPages : Nat) :
    (iterate_list_pages env url maxPages).1.length ≤
      (if maxPages ≤ 1 then 1 else maxPages) ∧
    ((((iterate_list_pages env url maxPages).2.filter fun e => e.2).map
      fun e => e.1).Nodup) := by
  have h := iterPagesLoop_invariants env (if maxPages ≤ 1 then 1 else maxPages)
    (env.netloc url) [url] [] [] 0 0
  exact ⟨h.1 (Nat.zero_le _), h.2.2⟩

/-- **C8, counterexample** to "no URL is fetched more than once within one
invocation": in `cexPagEnv` page `"a"` links twice to `"b"`; the first
fetch of `"b"` raises (`fetch_one` propagates to `except Exception:
continue`, which does not touch `seen`), so the second queued copy of
`"b"` is dequeued, passes the `u in seen` check and is fetched again — the
fetch trace calls `fetch_one` on `"b"` twice. -/
theorem refetch_after_failure_counterexample :
    ((iterate_list_pages cexPagEnv ['a'] 5).2.map fun e => e.1) =
      [['a'], ['b'], ['b']] ∧
    ¬ ((((iterate_list_pages cexPagEnv ['a'] 5).2.map fun e => e.1)).Nodup) := by
  constructor
  · simp [iterate_list_pages, iterPagesLoop, cexPagEnv]
  · simp [iterate_list_pages, iterPagesLoop, cexPagEnv]

/-- **C9 (amended).** Embedded-ATS auto-discovery does not take priority
over all scraping: it runs only after listing extraction and high-signal
JSON extraction both come up empty.  When they do, and the page's detection
list starts with a valid greenhouse slug whose API fetch returns a
non-empty job list, `CareerUrlAgent.fetch` returns exactly those API jobs
tagged with `_detected_source_type`, `_detected_company_slug` and
`_detected_from_url` — taking priority over the Playwright escalation and
the detail-link fallback. -/
theorem ats_auto_discovery_after_extraction_fails
    (env : CareerEnv) (label : List Char) (src : CareerSrc) (maxPages : Nat)
    (html0 url0 slug : List Char) (rest : List (List Char × List Char))
    (drest : List (List Char × List Char)) (ghJobs : List RawJob)
    (hurl : pyStrip src.url ≠ [])
    (hpages : (iterate_list_pages env.pagEnv (pyStrip src.url) maxPages).1 =
      (html0, url0) :: rest)
    (hlist : dedupe_jobs_by_url (((html0, url0) :: rest).flatMap
      fun p => env.extractListing p.1 p.2) = [])
    (hjson : dedupe_jobs_by_url (keep_high_signal_jobs
      (((html0, url0) :: rest).flatMap
        fun p => env.extractJsonld p.1 p.2 ++ env.extractEmbedded p.1 p.2)) = [])
    (hdet : detect_embedded_ats html0 url0 = (str "greenhouse", slug) :: drest)
    (hslug : slug ≠ [])
    (hgh : env.ghFetch slug label = .ok ghJobs)
    (hne : ghJobs ≠ []) :
    CareerUrlAgent.fetch env label src maxPages =
      tagDetected (str "greenhouse") slug url0 ghJobs := by
  unfold CareerUrlAgent.fetch
  dsimp only
  rw [if_neg hurl, hpages]
  dsimp only
  rw [hlist, hjson, hdet]
  simp only [ne_eq, not_true_eq_false, if_false]
  rw [atsTryList]
  rw [if_neg (by simp [str, hslug]), if_pos rfl, hgh]
  dsimp only
  rw [if_pos hne]

/-- The one-page crawl of the C9 scenarios, evaluated. -/
lemma c9_pages : (iterate_list_pages c9PagEnv ['u'] 1).1 =
    [(c9Html, str "u0")] := by
  have hne : c9Html ≠ [] := by decide
  simp [iterate_list_pages, iterPagesLoop, c9PagEnv, hne]

/-- **C9, counterexample** to "auto-discovery takes priority over all
scraping of the page": the wrapper page `c9Html` embeds
`greenhouse.io/...?for=acme`, detection finds `{type: greenhouse, slug:
acme}` and the Greenhouse API agent would return `apiJob`, yet
`CareerUrlAgent.fetch` returns the scraped listing job because listing
extraction succeeds first and the detection branch is never consulted. -/
theorem listing_scrape_preempts_ats_detection :
    detect_embedded_ats c9Html (str "u0") = [(str "greenhouse", str "acme")] ∧
    c9ScrapeEnv.ghFetch (str "acme") (str "L") = .ok [apiJob] ∧
    CareerUrlAgent.fetch c9ScrapeEnv (str "L") c9Src 1 = [scrapedJob] ∧
    CareerUrlAgent.fetch c9ScrapeEnv (str "L") c9Src 1 ≠
      tagDetected (str "greenhouse") (str "acme") (str "u0") [apiJob] := by
  have hfetch : CareerUrlAgent.fetch c9ScrapeEnv (str "L") c9Src 1 =
      [scrapedJob] := by
    unfold CareerUrlAgent.fetch
    dsimp only
    rw [show pyStrip c9Src.url = ['u'] from by decide]
    rw [if_neg (by decide : ¬(['u'] : List Char) = [])]
    rw [show c9ScrapeEnv.pagEnv = c9PagEnv from rfl, c9_pages]
    dsimp only
    rw [show dedupe_jobs_by_url ([(c9Html, str "u0")].flatMap
      fun p => c9ScrapeEnv.extractListing p.1 p.2) = [scrapedJob] from by decide]
    rw [if_pos (by decide : ([scrapedJob] : List RawJob) ≠ [])]
  refine ⟨by decide, rfl, hfetch, ?_⟩
  rw [hfetch]
  decide

/-- Witness for C9 (amended): in `c9ApiEnv` nothing is scrapable, detection
finds `acme`, and `fetch` returns the tagged Greenhouse API job. -/
theorem ats_auto_discovery_after_extraction_fails_witness :
    CareerUrlAgent.fetch c9ApiEnv (str "L") c9Src 1 =
      tagDetected (str "greenhouse") (str "acme") (str "u0") [apiJob] :=
  ats_auto_discovery_after_extraction_fails c9ApiEnv (str "L") c9Src 1
    c9Html (str "u0") (str "acme") [] [] [apiJob]
    (by decide)
    (by rw [show pyStrip c9Src.url = ['u'] from by decide,
          show c9ApiEnv.pagEnv = c9PagEnv from rfl]
        exact c9_pages)
    (by decide)
    (by decide)
    (by decide)
    (by decide)
    rfl
    (by decide)

end JobWatcher
